import Mathlib

/-!
Verification of the ingestion/normalization/classification core of
`cc-session-search` (conversation_parser.py, dashboard_utils.py) against
its specification.

The Python sources are shallowly embedded:
* decoded JSON / runtime Python values become the inductive `PyVal`
  (floats are modelled as exact rationals);
* operations that can raise at runtime (`.get` on a non-dict, `in` on a
  number, joining non-strings, unhashable dict keys, ...) return
  `Except PyErr`;
* the module-global classifier cache becomes an explicit state value
  threaded through `get_message_type`.
-/

namespace CCS

/-- Decidable equality of `Except` results. -/
def exceptDecEq {ε α : Type} [DecidableEq ε] [DecidableEq α] :
    (a b : Except ε α) → Decidable (a = b)
  | .ok a, .ok b =>
      if h : a = b then .isTrue (by rw [h])
      else .isFalse (by intro c; injection c; contradiction)
  | .error a, .error b =>
      if h : a = b then .isTrue (by rw [h])
      else .isFalse (by intro c; injection c; contradiction)
  | .ok _, .error _ => .isFalse (fun h => Except.noConfusion h)
  | .error _, .ok _ => .isFalse (fun h => Except.noConfusion h)

instance {ε α : Type} [DecidableEq ε] [DecidableEq α] : DecidableEq (Except ε α) :=
  exceptDecEq

/-- An exact rational, kept normalized (positive denominator, lowest
terms) by its constructors.  Python floats are modelled by these exact
values; all operations the embedded code performs on them (`+`, `*`,
`/ 1_000_000`) are exact, and every operation reduces inside the
kernel (Mathlib's `Rat` normalization does not). -/
structure QQ where
  num : Int
  den : Nat
  deriving DecidableEq, Repr

namespace QQ

/-- Euclid's algorithm with explicit fuel (so that it is structurally
recursive and kernel-computable); `fuel = a + b + 1` always suffices. -/
def gcdF : Nat → Nat → Nat → Nat
  | 0, _, b => b
  | fuel + 1, a, b => if a = 0 then b else gcdF fuel (b % a) a

/-- `Nat.gcd`, kernel-computable. -/
def ngcd (a b : Nat) : Nat := gcdF (a + b + 1) a b

/-- Normalized rational from numerator and positive denominator. -/
def mk' (n : Int) (d : Nat) : QQ :=
  let g := ngcd n.natAbs d
  if g = 0 then ⟨0, 1⟩ else ⟨n / (g : Int), d / g⟩

def ofInt (n : Int) : QQ := ⟨n, 1⟩

def add (x y : QQ) : QQ := mk' (x.num * y.den + y.num * x.den) (x.den * y.den)

def mul (x y : QQ) : QQ := mk' (x.num * y.num) (x.den * y.den)

/-- Exact division by one million (`v / 1_000_000`, the only division
the cost formula performs). -/
def divM (x : QQ) : QQ := mk' x.num (x.den * 1000000)

/-- Value equality by cross-multiplication (robust even for values not
in lowest terms). -/
def eqv (x y : QQ) : Bool := x.num * y.den = y.num * x.den

end QQ

/-- Python runtime errors that the embedded code can raise.  The parser
only distinguishes raising from not raising (a raised error is either
caught, dropping one record, or propagated), so a coarse classification
suffices. -/
inductive PyErr where
  | typeError
  | attributeError
  | keyError
  deriving DecidableEq, Repr

mutual
/-- A decoded JSON value / Python runtime value as it flows through the
parser: `None`, booleans, ints, floats (modelled exactly as rationals),
strings, lists and string-keyed dicts (JSON object keys are strings). -/
inductive PyVal where
  | none
  | bool (b : Bool)
  | int (n : Int)
  | num (q : QQ)
  | str (s : String)
  | list (xs : PyList)
  | dict (fs : PyFields)
  deriving DecidableEq, Repr
/-- A Python list of `PyVal`s. -/
inductive PyList where
  | nil
  | cons (hd : PyVal) (tl : PyList)
  deriving DecidableEq, Repr
/-- The (string-keyed) fields of a JSON object, in insertion order. -/
inductive PyFields where
  | nil
  | cons (k : String) (v : PyVal) (tl : PyFields)
  deriving DecidableEq, Repr
end

namespace PyList

/-- Convert to a Lean list (for iteration). -/
def toList : PyList → List PyVal
  | .nil => []
  | .cons x xs => x :: toList xs

/-- Build from a Lean list. -/
def ofList : List PyVal → PyList
  | [] => .nil
  | x :: xs => .cons x (ofList xs)

def isEmpty : PyList → Bool
  | .nil => true
  | .cons _ _ => false

end PyList

namespace PyFields

/-- `d[k]` on a JSON-decoded dict: first (and in decoded JSON, only)
binding of the key. -/
def lookup : PyFields → String → Option PyVal
  | .nil, _ => Option.none
  | .cons k v tl, key => if k = key then some v else lookup tl key

/-- `k in d`. -/
def hasKey (fs : PyFields) (k : String) : Bool :=
  (fs.lookup k).isSome

/-- `d[k] = v`: overwrite the existing binding in place, else append. -/
def set : PyFields → String → PyVal → PyFields
  | .nil, key, v => .cons key v .nil
  | .cons k w tl, key, v =>
      if k = key then .cons k v tl else .cons k w (set tl key v)

def isEmpty : PyFields → Bool
  | .nil => true
  | .cons _ _ _ => false

/-- Build from a Lean association list. -/
def ofList : List (String × PyVal) → PyFields
  | [] => .nil
  | (k, v) :: tl => .cons k v (ofList tl)

/-- The keys, in order (`iter(d)` iterates keys). -/
def keys : PyFields → List String
  | .nil => []
  | .cons k _ tl => k :: keys tl

end PyFields

namespace PyVal

/-- Shorthand for a list literal. -/
def mkList (xs : List PyVal) : PyVal := .list (.ofList xs)

/-- Shorthand for a dict literal. -/
def mkDict (fs : List (String × PyVal)) : PyVal := .dict (.ofList fs)

/-- Python truthiness: `bool(v)`. -/
def truthy : PyVal → Bool
  | .none => false
  | .bool b => b
  | .int n => n ≠ 0
  | .num q => q.num ≠ 0
  | .str s => s ≠ ""
  | .list xs => !xs.isEmpty
  | .dict fs => !fs.isEmpty

/-- Numeric view shared by `bool`/`int`/`float` (Python compares and
mixes these freely: `True == 1`, `1 == 1.0`). -/
def asNum? : PyVal → Option QQ
  | .bool b => some (.ofInt (if b then 1 else 0))
  | .int n => some (.ofInt n)
  | .num q => some q
  | _ => Option.none

end PyVal

/-- Remove one binding of a key (helper for the dict key-set
comparison in `pyEqFields`). -/
def PyFields.removeKey : PyFields → String → PyFields
  | .nil, _ => .nil
  | .cons k v tl, key => if k = key then tl else .cons k v (removeKey tl key)

mutual
/-- Python `==` on decoded values: numeric types compare by value across
`bool`/`int`/`float`; containers compare elementwise; mismatched kinds
compare unequal. -/
def pyEq : PyVal → PyVal → Bool
  | .bool a, b => match b.asNum? with
      | some q => QQ.eqv (.ofInt (if a then 1 else 0)) q
      | Option.none => false
  | .int a, b => match b.asNum? with
      | some q => QQ.eqv (.ofInt a) q
      | Option.none => false
  | .num a, b => match b.asNum? with
      | some q => QQ.eqv a q
      | Option.none => false
  | .none, b => match b with | .none => true | _ => false
  | .str a, b => match b with | .str c => a = c | _ => false
  | .list xs, b => match b with | .list ys => pyEqList xs ys | _ => false
  | .dict fs, b => match b with | .dict gs => pyEqFields fs gs | _ => false
/-- Python `==` on lists. -/
def pyEqList : PyList → PyList → Bool
  | .nil, .nil => true
  | .cons x xs, .cons y ys => pyEq x y && pyEqList xs ys
  | _, _ => false
/-- Python `==` on dicts: same key set, equal values.  (Decoded JSON
objects carry each key once, and `pyEqFields` compares under that
assumption.) -/
def pyEqFields : PyFields → PyFields → Bool
  | .nil, gs => gs.isEmpty
  | .cons k v tl, gs => match gs.lookup k with
      | some w => pyEq v w && pyEqFields tl (gs.removeKey k)
      | Option.none => false
end

/-- Is the first character list a prefix of the second? -/
def charsPrefix : List Char → List Char → Bool
  | [], _ => true
  | _ :: _, [] => false
  | c :: cs, d :: ds => c = d && charsPrefix cs ds

/-- Does the pattern occur in the character list? -/
def charsContains (pat : List Char) : List Char → Bool
  | [] => charsPrefix pat []
  | c :: cs => charsPrefix pat (c :: cs) || charsContains pat cs

/-- `pat in s` on Python strings (substring search, spelled over
character lists so that the kernel can evaluate it). -/
def strContains (s pat : String) : Bool :=
  charsContains pat.data s.data

/-- `s.startswith(pat)`. -/
def strStartsWith (s pat : String) : Bool :=
  charsPrefix pat.data s.data

/-- One character of `str.lower()`.  The sources only ever lower-case
ASCII marker text, so the locale-independent ASCII mapping is the
faithful model here. -/
def lowerChar (c : Char) : Char :=
  if 'A' ≤ c && c ≤ 'Z' then Char.ofNat (c.toNat + 32) else c

/-- `s.lower()`. -/
def strLower (s : String) : String :=
  String.mk (s.data.map lowerChar)

/-- Python's `str.strip()` whitespace set (ASCII). -/
def isPySpace (c : Char) : Bool :=
  c = ' ' || c = '\t' || c = '\n' || c = '\x0d' || c = '\x0b' || c = '\x0c'

/-- `s.strip()`. -/
def strStrip (s : String) : String :=
  String.mk (((s.data.dropWhile isPySpace).reverse.dropWhile isPySpace).reverse)

mutual
/-- Python `str(v)`/`repr(v)`.  Scalar renderings are exact except for
floats (Python prints shortest-roundtrip decimals; we print the
rational).  No verified claim inspects this rendering. -/
def pyRepr : PyVal → String
  | .none => "None"
  | .bool b => if b then "True" else "False"
  | .int n => toString n
  | .num q => toString q.num ++ (if q.den = 1 then "" else "/" ++ toString q.den)
  | .str s => "'" ++ s ++ "'"
  | .list xs => "[" ++ String.intercalate ", " (pyReprList xs) ++ "]"
  | .dict fs => "\x7b" ++ String.intercalate ", " (pyReprFields fs) ++ "\x7d"
def pyReprList : PyList → List String
  | .nil => []
  | .cons x xs => pyRepr x :: pyReprList xs
def pyReprFields : PyFields → List String
  | .nil => []
  | .cons k v tl => ("'" ++ k ++ "': " ++ pyRepr v) :: pyReprFields tl
end

/-- Python `str(v)`: like `repr` but a string renders as itself. -/
def pyToStr : PyVal → String
  | .str s => s
  | v => pyRepr v

namespace PyVal

/-- `v.get(k, dflt)`: a method of `dict`; any other receiver raises
`AttributeError`. -/
def get : PyVal → String → PyVal → Except PyErr PyVal
  | .dict fs, k, dflt => .ok ((fs.lookup k).getD dflt)
  | _, _, _ => .error .attributeError

/-- `v[k]` with a string key.  On a dict a present key gives its value
and a missing key raises `KeyError`; string and list receivers raise
`TypeError` (their indices must be integers); everything else is not
subscriptable. -/
def index : PyVal → String → Except PyErr PyVal
  | .dict fs, k =>
      match fs.lookup k with
      | some v => .ok v
      | Option.none => .error .keyError
  | _, _ => .error .typeError

/-- `k in v` for a string needle `k`: dict membership inspects keys,
string membership is substring search, list membership compares
elements with `==`; other receivers raise `TypeError`. -/
def containsStr : PyVal → String → Except PyErr Bool
  | .dict fs, k => .ok (fs.hasKey k)
  | .str s, k => .ok (strContains s k)
  | .list xs, k => .ok (xs.toList.any (fun x => pyEq (.str k) x))
  | _, _ => .error .typeError

/-- `iter(v)` materialised: lists yield elements, strings yield their
characters, dicts yield their keys; other receivers raise. -/
def iter : PyVal → Except PyErr (List PyVal)
  | .list xs => .ok xs.toList
  | .str s => .ok (s.data.map (fun c => PyVal.str (String.mk [c])))
  | .dict fs => .ok (fs.keys.map PyVal.str)
  | _ => .error .typeError

/-- `v.lower()`: a string method. -/
def lower : PyVal → Except PyErr String
  | .str s => .ok (strLower s)
  | _ => .error .attributeError

/-- `v.startswith(p)`: a string method. -/
def pyStartsWith : PyVal → String → Except PyErr Bool
  | .str s, p => .ok (strStartsWith s p)
  | _, _ => .error .attributeError

/-- `v.strip()`: a string method (strips surrounding whitespace). -/
def strip : PyVal → Except PyErr String
  | .str s => .ok (strStrip s)
  | _ => .error .attributeError

/-- Numeric coercion used by arithmetic (`v / 1_000_000`, `v * price`):
bools count as 0/1, anything non-numeric raises `TypeError`. -/
def toRat : PyVal → Except PyErr QQ
  | .bool b => .ok (.ofInt (if b then 1 else 0))
  | .int n => .ok (.ofInt n)
  | .num q => .ok q
  | _ => .error .typeError

/-- `v > 0`: defined for numeric values (with `True > 0`), raises
`TypeError` for everything else. -/
def gtZero : PyVal → Except PyErr Bool
  | .bool b => .ok b
  | .int n => .ok (decide (0 < n))
  | .num q => .ok (decide (0 < q.num))
  | _ => .error .typeError

/-- Hashable values may be dict keys; lists and dicts raise
`TypeError` when used as keys. -/
def hashable : PyVal → Bool
  | .list _ => false
  | .dict _ => false
  | _ => true

/-- Is it a dict (`isinstance(v, dict)`)?  -/
def isDict : PyVal → Bool
  | .dict _ => true
  | _ => false

/-- Is it a list (`isinstance(v, list)`)?  -/
def isList : PyVal → Bool
  | .list _ => true
  | _ => false

/-- Is it a string (`isinstance(v, str)`)?  -/
def isStr : PyVal → Bool
  | .str _ => true
  | _ => false

end PyVal

/-- A runtime Python dict whose keys are arbitrary (hashable) values:
used for the tables the dashboard code builds.  Insertion conses, so
lookups read the most recent binding first — observably the same as
Python's overwrite-in-place, since the embedded code never iterates
these tables. -/
abbrev PyTable (β : Type) : Type := List (PyVal × β)

namespace PyTable

/-- `t.get(k)` (`None`/absent result is `Option.none`). -/
def get {β : Type} (t : PyTable β) (k : PyVal) : Option β :=
  match t with
  | [] => Option.none
  | (k', v) :: tl => if pyEq k' k then some v else get tl k

/-- `t[k] = v`: raises `TypeError` on an unhashable key. -/
def set {β : Type} (t : PyTable β) (k : PyVal) (v : β) : Except PyErr (PyTable β) :=
  if k.hashable then .ok ((k, v) :: t) else .error .typeError

end PyTable

/-- If every part is a string, return them; `'\n'.join` raises
`TypeError` otherwise. -/
def asStrings : List PyVal → Option (List String)
  | [] => some []
  | .str s :: tl => (asStrings tl).map (s :: ·)
  | _ => Option.none

/-- `'\n'.join(parts)`. -/
def joinParts (ps : List PyVal) : Except PyErr PyVal :=
  match asStrings ps with
  | some ss => .ok (.str (String.intercalate "\n" ss))
  | Option.none => .error .typeError

mutual
/-- `JSONLParser._extract_content`: flatten string / list / dict content
into text.  `text` blocks emit their text value (joining later raises
if it is not a string), `thinking` blocks emit a `[Thinking: ...]`
marker, blocks carrying nested `content` recurse, `tool_use` blocks and
other shapes are skipped in lists; a lone dict of no known shape
renders via `str()`. -/
def extract_content : PyVal → Except PyErr PyVal
  | .str s => .ok (.str s)
  | .list xs => do
      let parts ← extractParts xs
      joinParts parts
  | .dict fs =>
      let bt := (fs.lookup "type").getD .none
      if pyEq bt (.str "text") && fs.hasKey "text" then
        .ok ((fs.lookup "text").getD .none)
      else if pyEq bt (.str "thinking") && fs.hasKey "thinking" then
        .ok (.str ("[Thinking: " ++ pyToStr ((fs.lookup "thinking").getD .none) ++ "]"))
      else
        match extractNested fs with
        | some r => r
        | Option.none => .ok (.str (pyToStr (.dict fs)))
  | v => .ok (.str (if v.truthy then pyToStr v else ""))
/-- The `elif 'content' in block:` recursion of `_extract_content`:
walk the fields for the first `content` binding and recurse on its
value (structurally, so that the kernel can evaluate it). -/
def extractNested : PyFields → Option (Except PyErr PyVal)
  | .nil => Option.none
  | .cons k v tl =>
      if k = "content" then some (extract_content v) else extractNested tl
/-- One pass of `_extract_content` over the blocks of a content list,
collecting the parts to be newline-joined. -/
def extractParts : PyList → Except PyErr (List PyVal)
  | .nil => .ok []
  | .cons b tl => do
      let part? ← (match b with
        | .dict fs =>
            let bt := (fs.lookup "type").getD .none
            if pyEq bt (.str "text") && fs.hasKey "text" then
              pure (some ((fs.lookup "text").getD .none))
            else if pyEq bt (.str "thinking") && fs.hasKey "thinking" then
              pure (some (.str ("[Thinking: " ++ pyToStr ((fs.lookup "thinking").getD .none) ++ "]")))
            else
              match extractNested fs with
              | some r => do
                  let x ← r
                  pure (some x)
              | Option.none => pure Option.none
        | .str s => pure (some (.str s))
        | _ => pure Option.none : Except PyErr (Option PyVal))
      let rest ← extractParts tl
      match part? with
      | some p => .ok (p :: rest)
      | Option.none => .ok rest
end

/-! ## conversation_parser.py: pricing and message normalization -/

/-- `CLAUDE_PRICING`: per-million-token `(input, output)` prices
(0.25 = 1/4, 1.25 = 5/4, written exactly). -/
def CLAUDE_PRICING : String → Option (QQ × QQ)
  | "claude-sonnet-4-5-20250929" => some (.ofInt 3, .ofInt 15)
  | "claude-3-5-sonnet-20241022" => some (.ofInt 3, .ofInt 15)
  | "claude-3-5-sonnet-20240620" => some (.ofInt 3, .ofInt 15)
  | "claude-3-opus-20240229" => some (.ofInt 15, .ofInt 75)
  | "claude-3-sonnet-20240229" => some (.ofInt 3, .ofInt 15)
  | "claude-3-haiku-20240307" => some (⟨1, 4⟩, ⟨5, 4⟩)
  | _ => Option.none

/-- `CLAUDE_PRICING.get(model, CLAUDE_PRICING['claude-sonnet-4-5-20250929'])`:
string keys consult the table (default entry on a miss), other hashable
keys always miss to the default, and unhashable keys raise. -/
def pricingFor (model : PyVal) : Except PyErr (QQ × QQ) :=
  match model with
  | .str s => .ok ((CLAUDE_PRICING s).getD (.ofInt 3, .ofInt 15))
  | .list _ => .error .typeError
  | .dict _ => .error .typeError
  | _ => .ok (.ofInt 3, .ofInt 15)

/-- The token/cost accounting block of `_parse_message` (the
`try`/`except` wrapping lines `token_count = 0` through the cost
formula).  Returns the final values of `(token_count, cost_usd,
input_tokens, output_tokens, cache_creation_tokens,
cache_read_tokens)`.  An exception inside the block is caught by the
surrounding handler, freezing whatever had been assigned up to that
point: in particular `token_count = output_tokens` is assigned before
any cost arithmetic, and the four token variables are zeroed only by
the `else` branch. -/
def costBlock (role model input output cacheC cacheR : PyVal) :
    PyVal × QQ × PyVal × PyVal × PyVal × PyVal :=
  let caught0 := (PyVal.int 0, QQ.ofInt 0, input, output, cacheC, cacheR)
  let zeros := (PyVal.int 0, QQ.ofInt 0, PyVal.int 0, PyVal.int 0, PyVal.int 0, PyVal.int 0)
  if pyEq role (.str "assistant") then
    match input.gtZero with
    | .error _ => caught0
    | .ok gi =>
      match (if gi then Except.ok true else output.gtZero) with
      | .error _ => caught0
      | .ok cond =>
        if cond then
          let caught1 := (output, QQ.ofInt 0, input, output, cacheC, cacheR)
          match pricingFor model with
          | .error _ => caught1
          | .ok (pin, pout) =>
            match input.toRat with
            | .error _ => caught1
            | .ok iq =>
              match output.toRat with
              | .error _ => caught1
              | .ok oq =>
                match cacheC.toRat with
                | .error _ => caught1
                | .ok cq =>
                  match cacheR.toRat with
                  | .error _ => caught1
                  | .ok rq =>
                    (output,
                     (((iq.divM.mul pin).add (oq.divM.mul pout)).add
                        (cq.divM.mul pin)).add
                       (rq.divM.mul (pin.mul ⟨1, 10⟩)),
                     input, output, cacheC, cacheR)
        else zeros
  else zeros

/-- `ParsedMessage`.  `timestamp` models the optional `datetime` as an
integer instant; the remaining dynamically-typed fields stay `PyVal`
(Python's dataclass annotations are not enforced at runtime, and e.g.
`tool_uses` receives the raw `toolUseResult` payload of any shape,
with Python `None` embedded as `PyVal.none`). -/
structure ParsedMessage where
  uuid : PyVal
  role : PyVal
  content : PyVal
  timestamp : Option Int
  tool_uses : PyVal
  metadata : PyVal
  token_count : PyVal
  cost_usd : QQ
  input_tokens : PyVal
  output_tokens : PyVal
  cache_creation_tokens : PyVal
  cache_read_tokens : PyVal
  deriving DecidableEq, Repr

/-- Does a content value hold (as a list) some dict block of type
`tool_result`?  (`role=='user'` tool-response detection.) -/
def hasToolResultBlock : PyVal → Bool
  | .list xs => xs.toList.any (fun b =>
      match b with
      | .dict fs => pyEq ((fs.lookup "type").getD .none) (.str "tool_result")
      | _ => false)
  | _ => false

/-- First `tool_result` block carrying a `tool_use_id`, giving that id
(the augmentation loop over content blocks under `toolUseResult`). -/
def findToolResultId : List PyVal → Option PyVal
  | [] => Option.none
  | .dict fs :: tl =>
      if pyEq ((fs.lookup "type").getD .none) (.str "tool_result") && fs.hasKey "tool_use_id"
      then fs.lookup "tool_use_id"
      else findToolResultId tl
  | _ :: tl => findToolResultId tl

/-- Is a block a dict of type `tool_use`? -/
def isToolUseBlock : PyVal → Bool
  | .dict fs => pyEq ((fs.lookup "type").getD .none) (.str "tool_use")
  | _ => false

/-- `block.get('name', 'unknown')` over the collected `tool_use`
blocks. -/
def toolUseNames (blocks : List PyVal) : List PyVal :=
  blocks.map (fun b =>
    match b with
    | .dict fs => (fs.lookup "name").getD (.str "unknown")
    | _ => .str "unknown")

/-- The `message_data` derivation of `_parse_message`: summary records
synthesize `{'content': raw.get('summary', '')}`, other records read
`raw.get('message', {})`. -/
def messageDataE (raw msgType : PyVal) : Except PyErr PyVal :=
  if pyEq msgType (.str "summary") then do
    let s ← raw.get "summary" (.str "")
    pure (PyVal.mkDict [("content", s)])
  else raw.get "message" (.dict .nil)

/-- The raw role derivation: `'summary'` for summary records, else
`message.role` defaulting to the record type. -/
def rawRoleE (messageData msgType : PyVal) : Except PyErr PyVal :=
  if pyEq msgType (.str "summary") then pure (PyVal.str "summary")
  else messageData.get "role" msgType

/-- The tool-response reclassification: a `user`-role record whose
content array carries a `tool_result` block, or which has a top-level
`toolUseResult` field, becomes role `tool`. -/
def reclassifyE (raw messageData role0 : PyVal) : Except PyErr PyVal := do
  let cUser := pyEq role0 (.str "user")
  let c1 ← (if cUser then do
      let cv ← messageData.get "content" .none
      pure (hasToolResultBlock cv)
    else pure false : Except PyErr Bool)
  let c2 ← if cUser then raw.containsStr "toolUseResult" else pure false
  pure (if c1 || c2 then PyVal.str "tool" else role0)

/-- The uuid derivation: `leafUuid` for summary records, `uuid`
otherwise, defaulting to a fresh `str(uuid4())`. -/
def uuidOfE (raw msgType : PyVal) (freshUuid : String) : Except PyErr PyVal :=
  if pyEq msgType (.str "summary") then raw.get "leafUuid" (.str freshUuid)
  else raw.get "uuid" (.str freshUuid)

/-- The timestamp derivation of `_parse_message`.  `fromIso` abstracts
`datetime.fromisoformat(s.replace('Z', '+00:00'))`, returning `none`
when that call would raise the caught `ValueError`.  (`.replace` is a
str method: a truthy non-str timestamp raises an AttributeError that
the `(ValueError, TypeError)` handler misses.)  Summary records
without a timestamp borrow `metadata.started_at` when present. -/
def timestampOfE (fromIso : String → Option Int) (raw msgType : PyVal)
    (metaStartedAt : Option Int) : Except PyErr (Option Int) := do
  let hasTs ← raw.containsStr "timestamp"
  let tsCond ← (if hasTs then do
      let tsv ← raw.index "timestamp"
      pure (if tsv.truthy then some tsv else Option.none)
    else pure Option.none : Except PyErr (Option PyVal))
  match tsCond with
  | some tsv =>
      match tsv with
      | .str s => pure (fromIso s)
      | _ => Except.error PyErr.attributeError
  | Option.none =>
      pure (if pyEq msgType (.str "summary") && metaStartedAt.isSome then metaStartedAt
            else Option.none)

/-- The tool-use extraction of `_parse_message`: a `toolUseResult`
payload (augmented with a recovered `tool_use_id`), or collected
`tool_use` blocks (synthesizing placeholder content when the flattened
content is blank).  Returns `(tool_uses, content)`. -/
def toolUsesContentE (raw messageData content0 : PyVal) :
    Except PyErr (PyVal × PyVal) := do
  let hasTUR ← raw.containsStr "toolUseResult"
  if hasTUR then do
    let tur ← raw.index "toolUseResult"
    let cv ← messageData.get "content" .none
    match cv with
    | .list xs =>
        match findToolResultId xs.toList with
        | some tid =>
            let base := (match tur with | .dict fs => fs | _ => PyFields.nil)
            pure (PyVal.dict (base.set "tool_use_id" tid), content0)
        | Option.none => pure (tur, content0)
    | _ => pure (tur, content0)
  else do
    let cv ← messageData.get "content" .none
    match cv with
    | .list xs =>
        let tub := xs.toList.filter isToolUseBlock
        if tub.isEmpty then pure (PyVal.none, content0)
        else do
          let stripped ← content0.strip
          if stripped = "" then
            match toolUseNames tub with
            | [n] => pure (PyVal.mkDict [("tool_calls", PyVal.mkList tub)],
                           PyVal.str ("[Calling tool: " ++ pyToStr n ++ "]"))
            | ns =>
                match asStrings ns with
                | some ss =>
                    pure (PyVal.mkDict [("tool_calls", PyVal.mkList tub)],
                          PyVal.str ("[Calling " ++ toString ns.length ++ " tools: "
                            ++ String.intercalate ", " ss ++ "]"))
                | Option.none => Except.error PyErr.typeError
          else pure (PyVal.mkDict [("tool_calls", PyVal.mkList tub)], content0)
    | _ => pure (PyVal.none, content0)

/-- `JSONLParser._parse_message`, up to the outer `try`/`except`
(which the wrapper `parse_message` applies).  `freshUuid` abstracts
one draw of `str(uuid4())`; `metaStartedAt` is `metadata.started_at`
(always `None` at the call sites in `parse_conversation_file`, since
start times are filled in later). -/
def parse_messageE (fromIso : String → Option Int) (raw : PyVal)
    (metaStartedAt : Option Int) (freshUuid : String) :
    Except PyErr ParsedMessage := do
  let msgType ← raw.get "type" (.str "unknown")
  let msgUuid ← uuidOfE raw msgType freshUuid
  let timestamp ← timestampOfE fromIso raw msgType metaStartedAt
  -- role and message payload
  let messageData ← messageDataE raw msgType
  let role0 ← rawRoleE messageData msgType
  let role ← reclassifyE raw messageData role0
  -- content flattening
  let contentRaw ← messageData.get "content" (.str "")
  let content0 ← extract_content contentRaw
  -- tool-use extraction
  let (tool_uses, content) ← toolUsesContentE raw messageData content0
  -- meta flag, model, usage
  let isMeta ← raw.get "isMeta" (.bool false)
  let model ← messageData.get "model" (.str "claude-sonnet-4-5-20250929")
  let usage ← messageData.get "usage" (.dict .nil)
  let inputT ← usage.get "input_tokens" (.int 0)
  let outputT ← usage.get "output_tokens" (.int 0)
  let cacheCT ← usage.get "cache_creation_input_tokens" (.int 0)
  let cacheRT ← usage.get "cache_read_input_tokens" (.int 0)
  let r := costBlock role model inputT outputT cacheCT cacheRT
  let cwd ← raw.get "cwd" .none
  let gitBranch ← raw.get "gitBranch" .none
  pure { uuid := msgUuid
         role := role
         content := content
         timestamp := timestamp
         tool_uses := tool_uses
         metadata := PyVal.mkDict [("original_type", msgType), ("cwd", cwd),
           ("git_branch", gitBranch), ("is_meta", isMeta), ("model", model)]
         token_count := r.1
         cost_usd := r.2.1
         input_tokens := r.2.2.1
         output_tokens := r.2.2.2.1
         cache_creation_tokens := r.2.2.2.2.1
         cache_read_tokens := r.2.2.2.2.2 }

/-- `JSONLParser._parse_message` with its outer `try`/`except`: any
exception drops the record (`None`). -/
def parse_message (fromIso : String → Option Int) (raw : PyVal)
    (metaStartedAt : Option Int) (freshUuid : String) : Option ParsedMessage :=
  match parse_messageE fromIso raw metaStartedAt freshUuid with
  | .ok m => some m
  | .error _ => Option.none

/-! ## conversation_parser.py: metadata extraction and the file-level parse -/

/-- The scan state of `_extract_conversation_metadata` (its local
variables, all initially `None`/`False`). -/
structure MetaAcc where
  git_branch : PyVal := .none
  working_directory : PyVal := .none
  is_subagent : Bool := false
  parent_session_id : PyVal := .none
  agent_id : PyVal := .none
  agent_type : Option String := Option.none
  deriving DecidableEq, Repr

/-- The agent-type heuristic: inspect the first `text`-typed dict block
(then `break`); keyword hits overwrite `agent_type`, a first text block
with no hit leaves it unchanged. -/
def inferAgentType (blocks : List PyVal) (current : Option String) :
    Except PyErr (Option String) :=
  match blocks with
  | [] => pure current
  | .dict fs :: tl =>
      if pyEq ((fs.lookup "type").getD .none) (.str "text") then do
        let low ← ((fs.lookup "text").getD (.str "")).lower
        pure (if strContains low "explore" || strContains low "exploration" then some "Explore"
              else if strContains low "plan" then some "Plan"
              else if strContains low "claude code" || strContains low "documentation" then
                some "claude-code-guide"
              else current)
      else inferAgentType tl current
  | _ :: tl => inferAgentType tl current

/-- The `gitBranch` update of the `_extract_conversation_metadata`
loop body (`if 'gitBranch' in msg and msg['gitBranch']: ...`). -/
def gitBranchStep (msg : PyVal) (acc : MetaAcc) : Except PyErr MetaAcc := do
  let hasGB ← msg.containsStr "gitBranch"
  if hasGB then do
    let v ← msg.index "gitBranch"
    pure (if v.truthy then { acc with git_branch := v } else acc)
  else pure acc

/-- The `cwd` update of the loop body. -/
def cwdStep (msg : PyVal) (acc : MetaAcc) : Except PyErr MetaAcc := do
  let hasCwd ← msg.containsStr "cwd"
  if hasCwd then do
    let v ← msg.index "cwd"
    pure (if v.truthy then { acc with working_directory := v } else acc)
  else pure acc

/-- The sidechain detection of the loop body: each record with a truthy
`isSidechain` and a truthy `agentId` overwrites the subagent fields
(and best-effort infers an agent type from the first text block). -/
def sidechainStep (msg : PyVal) (acc : MetaAcc) : Except PyErr MetaAcc := do
  let sc ← msg.get "isSidechain" .none
  let cond ← (if sc.truthy then do
      let aid ← msg.get "agentId" .none
      pure aid.truthy
    else pure false : Except PyErr Bool)
  if cond then do
    let aid ← msg.get "agentId" .none
    let psid ← msg.get "sessionId" .none
    let md ← msg.get "message" (.dict .nil)
    let r ← md.get "role" .none
    let at' ← (if pyEq r (.str "assistant") then do
        let c ← md.get "content" (.list .nil)
        match c with
        | .list xs => inferAgentType xs.toList acc.agent_type
        | _ => pure acc.agent_type
      else pure acc.agent_type : Except PyErr (Option String))
    pure { acc with is_subagent := true, agent_id := aid,
                    parent_session_id := psid, agent_type := at' }
  else pure acc

/-- One iteration of the `_extract_conversation_metadata` loop body on
a raw record. -/
def metaStep (msg : PyVal) (acc : MetaAcc) : Except PyErr MetaAcc := do
  let acc ← gitBranchStep msg acc
  let acc ← cwdStep msg acc
  sidechainStep msg acc

/-- The record scan of `_extract_conversation_metadata`, with its early
`break` once a git branch is known (and, for subagents, an agent type
has been inferred). -/
def metaScan (msgs : List PyVal) (acc : MetaAcc) : Except PyErr MetaAcc :=
  match msgs with
  | [] => pure acc
  | m :: tl => do
      let acc' ← metaStep m acc
      if acc'.git_branch.truthy && (!acc'.is_subagent || acc'.agent_type.isSome) then
        pure acc'
      else metaScan tl acc'

/-- `ConversationMetadata` (with `subagent_ids` initialised to `[]` by
`__post_init__`). -/
structure ConversationMetadata where
  project_name : String
  project_path : String
  session_id : String
  git_branch : PyVal
  started_at : Option Int
  ended_at : Option Int
  working_directory : PyVal
  message_count : Int
  file_path : String
  is_subagent : Bool
  parent_session_id : PyVal
  agent_id : PyVal
  agent_type : Option String
  subagent_ids : List PyVal
  deriving DecidableEq, Repr

/-- The decode outcome of one line of a JSONL file after `strip()`:
blank, invalid JSON (a `json.JSONDecodeError`), or a decoded record. -/
inductive FileLine where
  | blank
  | malformed
  | record (v : PyVal)
  deriving DecidableEq, Repr

/-- A conversation file as `parse_conversation_file` observes it:
existence (`exists() and is_file()`), the decoded line stream, the
stat modification time, and the path-derived names. -/
structure ConvFile where
  present : Bool
  lines : List FileLine
  mtime : Int
  parentName : String
  parentPath : String
  pathStr : String
  stem : String
  deriving DecidableEq, Repr

/-- The records that survive decoding: blank lines are skipped and
malformed lines dropped (with a warning), never aborting the read. -/
def decodedRecords (lines : List FileLine) : List PyVal :=
  lines.filterMap (fun l => match l with
    | .record v => some v
    | _ => Option.none)

/-- `JSONLParser._extract_conversation_metadata`. -/
def extract_conversation_metadata (f : ConvFile) (raws : List PyVal) :
    Except PyErr ConversationMetadata := do
  let acc ← metaScan raws {}
  pure { project_name := f.parentName
         project_path := f.parentPath
         session_id := f.stem
         git_branch := acc.git_branch
         started_at := Option.none
         ended_at := Option.none
         working_directory := acc.working_directory
         message_count := 0
         file_path := f.pathStr
         is_subagent := acc.is_subagent
         parent_session_id := acc.parent_session_id
         agent_id := acc.agent_id
         agent_type := acc.agent_type
         subagent_ids := [] }

/-- The nearest following timestamp in a message list. -/
def nextTimestamp : List ParsedMessage → Option Int
  | [] => Option.none
  | m :: tl =>
      match m.timestamp with
      | some t => some t
      | Option.none => nextTimestamp tl

/-- `JSONLParser._fix_missing_timestamps`: each message lacking a
timestamp receives the nearest following message's timestamp, or the
file modification time if none follows; messages are replaced, never
mutated. -/
def fix_missing_timestamps (messages : List ParsedMessage) (fileMtime : Int) :
    List ParsedMessage :=
  match messages with
  | [] => []
  | m :: tl =>
      (match m.timestamp with
       | Option.none => { m with timestamp := some ((nextTimestamp tl).getD fileMtime) }
       | some _ => m) :: fix_missing_timestamps tl fileMtime

/-- The failure modes of `parse_conversation_file`:
`missingFile` models the `FileNotFoundError` (the spec's
`MissingFileError`), `emptyFile` the `ValueError` raised when no line
decodes (the spec's `EmptyFileError`), and `raised e` an uncaught
runtime error escaping metadata extraction. -/
inductive ParseError where
  | missingFile
  | emptyFile
  | raised (e : PyErr)
  deriving DecidableEq, Repr

/-- `JSONLParser.parse_conversation_file`.  `freshUuid i` abstracts the
`uuid4()` draws available to the `i`-th record's `_parse_message`
call. -/
def parse_conversation_file (fromIso : String → Option Int)
    (freshUuid : Nat → String) (f : ConvFile) :
    Except ParseError (ConversationMetadata × List ParsedMessage) :=
  if !f.present then .error .missingFile
  else
    let raws := decodedRecords f.lines
    if raws.isEmpty then .error .emptyFile
    else
      match extract_conversation_metadata f raws with
      | .error e => .error (.raised e)
      | .ok md =>
          let msgs := raws.enum.filterMap
            (fun p => parse_message fromIso p.2 md.started_at (freshUuid p.1))
          let msgs := fix_missing_timestamps msgs f.mtime
          let md :=
            if msgs.isEmpty then md
            else
              let ts := msgs.filterMap (·.timestamp)
              { md with
                message_count := msgs.length
                started_at := match ts with
                  | [] => md.started_at
                  | t :: r => some (r.foldl min t)
                ended_at := match ts with
                  | [] => md.ended_at
                  | t :: r => some (r.foldl max t) }
          .ok (md, msgs)

/-! ## dashboard_utils.py: call-type map, classifier, correlator -/

/-- The classification of one `tool_call` block inside
`build_tool_call_type_map`: `(id, call type)`, or `none` when the id is
falsy (`continue`). -/
def callTypeOf (tc : PyVal) : Except PyErr (Option (PyVal × String)) := do
  let tid ← tc.get "id" .none
  let tname ← tc.get "name" (.str "")
  if !tid.truthy then pure Option.none
  else do
    let ty ← (if pyEq tname (.str "Task") then pure "subagent"
      else do
        let mcp ← tname.pyStartsWith "mcp__"
        if mcp then pure "mcp"
        else if pyEq tname (.str "Skill") then pure "skill"
        else if pyEq tname (.str "Read") then do
          let ti ← tc.get "input" (.dict .nil)
          let fp ← ti.get "file_path" (.str "")
          let sk ← fp.containsStr ".claude/skills"
          pure (if sk then "skill" else "basic")
        else pure "basic" : Except PyErr String)
    pure (some (tid, ty))

/-- The loop of `build_tool_call_type_map` over the message list. -/
def buildTCTMGo : List ParsedMessage → PyTable PyVal → Except PyErr (PyTable PyVal)
  | [], t => pure t
  | m :: tl, t => do
      let t' ← (if pyEq m.role (.str "assistant") && m.tool_uses.truthy then do
          let hasTC ← m.tool_uses.containsStr "tool_calls"
          if hasTC then do
            let calls ← m.tool_uses.index "tool_calls"
            let items ← calls.iter
            items.foldlM (fun acc tc => do
              match ← callTypeOf tc with
              | some (tid, ty) => acc.set tid (.str ty)
              | Option.none => pure acc) t
          else pure t
        else pure t : Except PyErr (PyTable PyVal))
      buildTCTMGo tl t'

/-- `build_tool_call_type_map`: one pass over the session's assistant
tool-call messages, typing each call id as
`subagent`/`mcp`/`skill`/`basic`. -/
def build_tool_call_type_map (messages : List ParsedMessage) :
    Except PyErr (PyTable PyVal) :=
  buildTCTMGo messages []

/-- The module-global classifier cache
(`_tool_call_type_cache`/`_cache_key`), made explicit.  The cache key
models `id(all_messages)` — CPython object identity, which outlives
neither list mutation nor id reuse. -/
structure ClassifierCache where
  toolCallTypeCache : PyTable PyVal := []
  cacheKey : Option Nat := Option.none
  deriving DecidableEq, Repr

/-- The module-load state of the cache (`{}` and `None`). -/
def ClassifierCache.init : ClassifierCache := {}

/-- The `for tool_call in msg.tool_uses['tool_calls']` loop of the
assistant branch of `get_message_type`: the first call that matches a
category returns it; a `Read` call outside the skills directory (and
any unrecognised name) falls through to the next call. -/
def assistantCallCategory : List PyVal → Except PyErr (Option String)
  | [] => pure Option.none
  | tc :: tl => do
      let tname ← tc.get "name" (.str "")
      if pyEq tname (.str "Task") then pure (some "subagent_call")
      else do
        let mcp ← tname.pyStartsWith "mcp__"
        if mcp then do
          let hasLR ← tname.containsStr "listResources"
          let low ← tname.lower
          if hasLR || strContains low "list" then pure (some "mcp_list")
          else do
            let hasRR ← tname.containsStr "readResource"
            if hasRR || strContains low "read" then pure (some "mcp_read")
            else pure (some "mcp_tool")
        else if pyEq tname (.str "Skill") then pure (some "skill_execute")
        else if pyEq tname (.str "Read") then do
          let ti ← tc.get "input" (.dict .nil)
          let fp ← ti.get "file_path" (.str "")
          let sk ← fp.containsStr ".claude/skills"
          if sk then pure (some "skill_read")
          else assistantCallCategory tl
        else assistantCallCategory tl

/-- The tool-name fallback at the end of the tool branch of
`get_message_type` (lines 228-237), ending in the branch default
`basic_tool_result`. -/
def toolNameFallback (tool_uses : PyVal) (st : ClassifierCache) :
    Except PyErr (String × ClassifierCache) := do
  let hasTN ← tool_uses.containsStr "tool_name"
  if hasTN then do
    let tn ← tool_uses.get "tool_name" (.str "")
    let mcp ← tn.pyStartsWith "mcp__"
    if mcp then pure ("mcp_result", st)
    else if pyEq tn (.str "Skill") then pure ("skill_result", st)
    else pure ("basic_tool_result", st)
  else pure ("basic_tool_result", st)

/-- `get_message_type(msg, all_messages)`.  The module-global cache is
threaded as explicit state, and `allMessagesId` models
`id(all_messages)` (pertinent only when `allMessages` is `some`). -/
def get_message_type (st : ClassifierCache) (msg : ParsedMessage)
    (allMessages : Option (List ParsedMessage)) (allMessagesId : Nat) :
    Except PyErr (String × ClassifierCache) := do
  let contentLow ← msg.content.lower
  let hsr := strContains contentLow "<system-reminder>"
  let thinking ← msg.content.containsStr "[Thinking:"
  let isMeta ← (if msg.metadata.truthy then msg.metadata.get "is_meta" (.bool false)
    else pure (.bool false) : Except PyErr PyVal)
  if isMeta.truthy then pure ("meta", st)
  else if pyEq msg.role (.str "user") && !hsr then pure ("user", st)
  else if hsr || pyEq msg.role (.str "system") then pure ("basic_tool_result", st)
  else if pyEq msg.role (.str "assistant") then do
    let isTC ← (if msg.tool_uses.truthy then msg.tool_uses.containsStr "tool_calls"
      else pure false : Except PyErr Bool)
    if isTC then do
      let calls ← msg.tool_uses.index "tool_calls"
      let items ← calls.iter
      let cat? ← assistantCallCategory items
      pure (cat?.getD "basic_tool_call", st)
    else if thinking then pure ("assistant_thinking", st)
    else pure ("assistant_text", st)
  else if pyEq msg.role (.str "tool") then do
    if msg.tool_uses.truthy then do
      let hasAg ← msg.tool_uses.containsStr "agentId"
      if hasAg then pure ("subagent_result", st)
      else if msg.tool_uses.isDict
          && (match msg.tool_uses with
              | .dict fs => fs.hasKey "tool_use_id"
              | _ => false) then do
        let tid ← msg.tool_uses.index "tool_use_id"
        match allMessages with
        | some lst =>
            if !lst.isEmpty then do
              let st' ← (if st.cacheKey ≠ some allMessagesId then do
                  let tm ← build_tool_call_type_map lst
                  pure { toolCallTypeCache := tm, cacheKey := some allMessagesId }
                else pure st : Except PyErr ClassifierCache)
              let ct? ← (if tid.hashable then pure (st'.toolCallTypeCache.get tid)
                else Except.error PyErr.typeError : Except PyErr (Option PyVal))
              match ct? with
              | some ct =>
                  if pyEq ct (.str "mcp") then pure ("mcp_result", st')
                  else if pyEq ct (.str "skill") then pure ("skill_result", st')
                  else if pyEq ct (.str "subagent") then pure ("subagent_result", st')
                  else if pyEq ct (.str "basic") then pure ("basic_tool_result", st')
                  else toolNameFallback msg.tool_uses st'
              | Option.none => toolNameFallback msg.tool_uses st'
            else toolNameFallback msg.tool_uses st
        | Option.none => toolNameFallback msg.tool_uses st
      else toolNameFallback msg.tool_uses st
    else pure ("basic_tool_result", st)
  else do
    let fh ← (if msg.metadata.truthy then do
        let ot ← msg.metadata.get "original_type" .none
        pure (pyEq ot (.str "file-history-snapshot"))
      else pure false : Except PyErr Bool)
    if fh then pure ("file-history-snapshot", st)
    else pure ("basic_tool_result", st)

/-- The assistant-call-id contribution of one message inside
`build_tool_call_mapping` (the ids assigned in its first inner loop;
falsy ids are skipped).  Collecting the ids before the table
assignments reorders two potential exceptions of one iteration but is
otherwise the loop verbatim. -/
def callIdsE (m : ParsedMessage) : Except PyErr (List PyVal) := do
  if pyEq m.role (.str "assistant") && m.tool_uses.truthy then do
    let hasTC ← m.tool_uses.containsStr "tool_calls"
    if hasTC then do
      let calls ← m.tool_uses.index "tool_calls"
      let items ← calls.iter
      let ids ← items.mapM (fun tc => tc.get "id" .none)
      pure (ids.filter PyVal.truthy)
    else pure []
  else pure []

/-- The tool-result id of one message inside
`build_tool_call_mapping` (its second inner branch). -/
def resultIdE (m : ParsedMessage) : Except PyErr (Option PyVal) := do
  if pyEq m.role (.str "tool") && m.tool_uses.truthy then
    if (match m.tool_uses with
        | .dict fs => fs.hasKey "tool_use_id"
        | _ => false) then do
      let tid ← m.tool_uses.index "tool_use_id"
      pure (some tid)
    else pure Option.none
  else pure Option.none

/-- The indexed loop of `build_tool_call_mapping`. -/
def btmGo : Nat → List ParsedMessage → PyTable Nat → PyTable Nat →
    Except PyErr (PyTable Nat × PyTable Nat)
  | _, [], tc, tr => pure (tc, tr)
  | i, m :: tl, tc, tr => do
      let ids ← callIdsE m
      let tc' ← ids.foldlM (fun acc tid => acc.set tid i) tc
      let rid? ← resultIdE m
      let tr' ← (match rid? with
        | some tid => tr.set tid i
        | Option.none => pure tr : Except PyErr (PyTable Nat))
      btmGo (i + 1) tl tc' tr'

/-- `build_tool_call_mapping`: one linear pass building
`tool_id → call index` and `tool_id → result index`. -/
def build_tool_call_mapping (messages : List ParsedMessage) :
    Except PyErr (PyTable Nat × PyTable Nat) :=
  btmGo 0 messages [] []

/-- Total view of a message's call-id contribution (empty where the
loop body would raise; only consulted beneath a successful
`build_tool_call_mapping`, where the two agree). -/
def callIdsOf (m : ParsedMessage) : List PyVal :=
  (callIdsE m).toOption.getD []

/-- Total view of a message's result id (absent where the loop body
would raise). -/
def resultIdOf (m : ParsedMessage) : Option PyVal :=
  (resultIdE m).toOption.getD Option.none

/-- Does the first inner loop of `build_tool_call_mapping` bind `key`
at this message? -/
def hitsCall (key : PyVal) (m : ParsedMessage) : Bool :=
  (callIdsOf m).any (fun v => pyEq v key)

/-- Does the second inner branch of `build_tool_call_mapping` bind
`key` at this message? -/
def hitsResult (key : PyVal) (m : ParsedMessage) : Bool :=
  match resultIdOf m with
  | some tid => pyEq tid key
  | Option.none => false

/-- The index of the last list element satisfying `p`: the binding
that survives in a dict written by a left-to-right indexed loop. -/
def lastIdxWith (p : ParsedMessage → Bool) : List ParsedMessage → Option Nat
  | [] => Option.none
  | m :: tl =>
      match lastIdxWith p tl with
      | some k => some (k + 1)
      | Option.none => if p m then some 0 else Option.none

/-! ## Specification-side (total) views of the role pipeline -/

/-- Total dict getter for specification-side statements (the embedded
code raises where this defaults; theorems relate the two only where
the code succeeds). -/
def dGetD (v : PyVal) (k : String) (d : PyVal) : PyVal :=
  match v with
  | .dict fs => (fs.lookup k).getD d
  | _ => d

/-- Top-level key test for specification-side statements. -/
def dHasKey (v : PyVal) (k : String) : Bool :=
  match v with
  | .dict fs => fs.hasKey k
  | _ => false

/-- The role a record normalizes to, stated as the (amended) invariant
describes it: `message.role` when present, else the record `type`,
except that summary records map to `summary` and user-role tool
responses reclassify to `tool`; any other raw string passes through
unchanged. -/
def roleSpec (raw : PyVal) : PyVal :=
  let t := dGetD raw "type" (.str "unknown")
  if pyEq t (.str "summary") then .str "summary"
  else
    let md := dGetD raw "message" (.dict .nil)
    let r := dGetD md "role" t
    if pyEq r (.str "user")
        && (hasToolResultBlock (dGetD md "content" .none) || dHasKey raw "toolUseResult")
    then .str "tool" else r

/-- The derived role before tool-response reclassification. -/
def preRole (raw : PyVal) : PyVal :=
  let t := dGetD raw "type" (.str "unknown")
  if pyEq t (.str "summary") then .str "summary"
  else dGetD (dGetD raw "message" (.dict .nil)) "role" t

/-- The content payload of a (non-summary) record. -/
def msgContent (raw : PyVal) : PyVal :=
  dGetD (dGetD raw "message" (.dict .nil)) "content" .none

/-- Specification-side pricing: the finite table keyed by model id,
with the designated default entry (`claude-sonnet-4-5-20250929`'s
3/15) for ids outside the table. -/
def priceFor (model : PyVal) : QQ × QQ :=
  match model with
  | .str s => (CLAUDE_PRICING s).getD (.ofInt 3, .ofInt 15)
  | _ => (.ofInt 3, .ofInt 15)

/-! ## Concrete records, sessions and files (used to instantiate the
theorems below on closed inputs) -/

/-- A timestamp decoder that always fails (no record below carries a
decodable timestamp). -/
def noIso : String → Option Int := fun _ => Option.none

/-- A deterministic uuid supply. -/
def uuidN : Nat → String := fun n => "uuid-" ++ toString n

/-- `{"type": "system"}`. -/
def rawSystem : PyVal := .mkDict [("type", .str "system")]

/-- The spec's reclassification instance: a `user` record whose content
is `[{"type": "tool_result", "tool_use_id": "x"}]`. -/
def rawUserToolResult : PyVal := .mkDict [("type", .str "user"),
  ("message", .mkDict [("role", .str "user"),
    ("content", .mkList [.mkDict [("type", .str "tool_result"), ("tool_use_id", .str "x")]])])]

/-- An assistant record with a top-level `toolUseResult` payload. -/
def rawAssistantTUR : PyVal := .mkDict [("type", .str "assistant"),
  ("message", .mkDict [("role", .str "assistant"), ("content", .str "done")]),
  ("toolUseResult", .mkDict [("stdout", .str "ok")])]

/-- The spec's cost-accounting instance: Haiku, one million input and
output tokens. -/
def rawHaiku : PyVal := .mkDict [("type", .str "assistant"),
  ("message", .mkDict [("role", .str "assistant"), ("content", .str "hello"),
    ("model", .str "claude-3-haiku-20240307"),
    ("usage", .mkDict [("input_tokens", .int 1000000), ("output_tokens", .int 1000000)])])]

/-- An assistant record whose usage carries only cache-read tokens. -/
def rawCacheOnly : PyVal := .mkDict [("type", .str "assistant"),
  ("message", .mkDict [("role", .str "assistant"), ("content", .str "hi"),
    ("model", .str "claude-3-haiku-20240307"),
    ("usage", .mkDict [("cache_read_input_tokens", .int 1000000)])])]

/-- A placeholder message (used only as a `getD` default below). -/
def dummyMsg : ParsedMessage :=
  { uuid := .none, role := .none, content := .none, timestamp := Option.none,
    tool_uses := .none, metadata := .none, token_count := .int 0,
    cost_usd := .ofInt 0, input_tokens := .int 0, output_tokens := .int 0,
    cache_creation_tokens := .int 0, cache_read_tokens := .int 0 }

/-- The message the Haiku record parses to (a closed, computable
value). -/
def haikuParsed : ParsedMessage :=
  (parse_message noIso rawHaiku Option.none "u").getD dummyMsg

/-- A normalized message with the given role/content/payload/metadata
and zeroed accounting (the shape `_parse_message` gives non-assistant
messages). -/
def mkMsg (role content tool_uses metadata : PyVal) : ParsedMessage :=
  { uuid := .str "u", role := role, content := content, timestamp := Option.none,
    tool_uses := tool_uses, metadata := metadata, token_count := .int 0,
    cost_usd := .ofInt 0, input_tokens := .int 0, output_tokens := .int 0,
    cache_creation_tokens := .int 0, cache_read_tokens := .int 0 }

/-- An assistant message calling the MCP tool `mcp__srv__do` with call
id `t1`. -/
def aMsgMcp : ParsedMessage := mkMsg (.str "assistant") (.str "")
  (.mkDict [("tool_calls", .mkList [.mkDict [("id", .str "t1"), ("name", .str "mcp__srv__do")]])])
  (.mkDict [])

/-- The tool message answering call `t1`. -/
def tMsgT1 : ParsedMessage := mkMsg (.str "tool") (.str "r")
  (.mkDict [("tool_use_id", .str "t1")]) (.mkDict [])

/-- A two-message session: one MCP call, its result. -/
def sessMcp : List ParsedMessage := [aMsgMcp, tMsgT1]

/-- A tool message answering call `t1` whose content carries a
`<system-reminder>` marker. -/
def tMsgSR : ParsedMessage := mkMsg (.str "tool") (.str "a<system-reminder>b")
  (.mkDict [("tool_use_id", .str "t1")]) (.mkDict [])

/-- A session pairing the MCP call with the reminder-bearing result. -/
def sessSR : List ParsedMessage := [aMsgMcp, tMsgSR]

/-- A two-record stream with two sidechain records naming different
agents. -/
def rawSidechain1 : PyVal := .mkDict [("isSidechain", .bool true),
  ("agentId", .str "a1"), ("sessionId", .str "p1")]

def rawSidechain2 : PyVal := .mkDict [("isSidechain", .bool true),
  ("agentId", .str "a2"), ("sessionId", .str "p2")]

/-- Is a record a sidechain record with a (truthy) agent id? -/
def isSCRecord (r : PyVal) : Bool :=
  (dGetD r "isSidechain" .none).truthy && (dGetD r "agentId" .none).truthy

/-- The last sidechain record of a stream, if any. -/
def lastSC : List PyVal → Option PyVal
  | [] => Option.none
  | r :: tl =>
      match lastSC tl with
      | some x => some x
      | Option.none => if isSCRecord r then some r else Option.none

/-- A placeholder metadata value (used only as a `getD` default). -/
def dummyMeta : ConversationMetadata :=
  { project_name := ""
    project_path := ""
    session_id := ""
    git_branch := .none
    started_at := Option.none
    ended_at := Option.none
    working_directory := .none
    message_count := 0
    file_path := ""
    is_subagent := false
    parent_session_id := .none
    agent_id := .none
    agent_type := Option.none
    subagent_ids := [] }

/-- A conversation file skeleton. -/
def cFile : ConvFile :=
  { present := true
    lines := []
    mtime := 100
    parentName := "proj"
    parentPath := "/home/u/proj"
    pathStr := "/home/u/proj/s.jsonl"
    stem := "s" }

/-- A file with a blank line, a malformed line, and one record. -/
def cFileOk : ConvFile := { cFile with
  lines := [.blank, .malformed, .record (.mkDict [("type", .str "user"),
    ("message", .mkDict [("role", .str "user"), ("content", .str "hi")])])] }

/-- A file whose lines all fail to decode. -/
def cFileEmpty : ConvFile := { cFile with lines := [.blank, .malformed] }

/-- The metadata the two-sidechain stream extracts to (a closed,
computable value). -/
def sidechainMeta : ConversationMetadata :=
  (extract_conversation_metadata cFile [rawSidechain1, rawSidechain2]).toOption.getD dummyMeta

/-! ## Monadic inversion lemmas -/

theorem except_bind_ok {ε α β : Type} {x : Except ε α} {f : α → Except ε β} {b : β} :
    (x >>= f) = .ok b ↔ ∃ a, x = .ok a ∧ f a = .ok b := by
  cases x <;> simp [Bind.bind, Except.bind]

theorem except_pure_ok {ε α : Type} {a b : α} :
    (pure a : Except ε α) = .ok b ↔ a = b := by
  simp [pure, Except.pure]

theorem except_ok_bind {ε α β : Type} (a : α) (f : α → Except ε β) :
    ((Except.ok a : Except ε α) >>= f) = f a := rfl

theorem pure_eq_ok {ε α : Type} (a : α) : (pure a : Except ε α) = Except.ok a := rfl

theorem get_ok_dict {v : PyVal} {k : String} {d w : PyVal} (h : v.get k d = .ok w) :
    ∃ fs, v = .dict fs ∧ w = (fs.lookup k).getD d := by
  cases v <;> simp [PyVal.get] at h
  exact ⟨_, rfl, h.symm⟩

/-- Everything a successful `_parse_message` run pins down about the
produced message: the stage values it went through, and the role,
metadata and accounting fields of the result. -/
theorem parse_messageE_ok_inv {fI : String → Option Int} {raw : PyVal}
    {sa : Option Int} {fu : String} {m : ParsedMessage}
    (h : parse_messageE fI raw sa fu = .ok m) :
    ∃ msgType messageData role0 role isMeta model usage inT outT ccT crT,
      raw.get "type" (.str "unknown") = .ok msgType ∧
      messageDataE raw msgType = .ok messageData ∧
      rawRoleE messageData msgType = .ok role0 ∧
      reclassifyE raw messageData role0 = .ok role ∧
      raw.get "isMeta" (.bool false) = .ok isMeta ∧
      messageData.get "model" (.str "claude-sonnet-4-5-20250929") = .ok model ∧
      messageData.get "usage" (.dict .nil) = .ok usage ∧
      usage.get "input_tokens" (.int 0) = .ok inT ∧
      usage.get "output_tokens" (.int 0) = .ok outT ∧
      usage.get "cache_creation_input_tokens" (.int 0) = .ok ccT ∧
      usage.get "cache_read_input_tokens" (.int 0) = .ok crT ∧
      m.role = role ∧
      (∃ cwd gb, m.metadata = PyVal.mkDict [("original_type", msgType), ("cwd", cwd),
        ("git_branch", gb), ("is_meta", isMeta), ("model", model)]) ∧
      (m.token_count, m.cost_usd, m.input_tokens, m.output_tokens,
        m.cache_creation_tokens, m.cache_read_tokens)
        = costBlock role model inT outT ccT crT := by
  simp only [parse_messageE, except_bind_ok, except_pure_ok] at h
  obtain ⟨msgType, hType, msgUuid, hUuid, ts, hTs,
    md, hMd, r0, hR0, role, hRole, craw, hCraw, c0, hC0,
    ⟨tu, cont⟩, hTc, isMeta, hMeta, model, hModel, usage, hUsage,
    inT, hIn, outT, hOut, ccT, hCc, crT, hCr, cwd, hCwd, gb, hGb, hm⟩ := h
  refine ⟨msgType, md, r0, role, isMeta, model, usage, inT, outT, ccT, crT,
    hType, hMd, hR0, hRole, hMeta, hModel, hUsage, hIn, hOut, hCc, hCr,
    ?_, ⟨cwd, gb, ?_⟩, ?_⟩ <;> rw [← hm]

/-- `reclassifyE` computed on dict-shaped record and payload. -/
theorem reclassifyE_dict (fs mdfs : PyFields) (role0 : PyVal) :
    reclassifyE (.dict fs) (.dict mdfs) role0 =
      .ok (if pyEq role0 (.str "user")
            && (hasToolResultBlock ((mdfs.lookup "content").getD .none)
                || fs.hasKey "toolUseResult")
          then .str "tool" else role0) := by
  by_cases hu : pyEq role0 (.str "user") = true <;>
    simp [reclassifyE, hu, PyVal.get, PyVal.containsStr, except_ok_bind,
      pure, Except.pure]

/-- `parse_messageE` assigns exactly the role `roleSpec` describes. -/
theorem parse_role_eq_roleSpec {fI : String → Option Int} {raw : PyVal}
    {sa : Option Int} {fu : String} {m : ParsedMessage}
    (h : parse_messageE fI raw sa fu = .ok m) : m.role = roleSpec raw := by
  obtain ⟨msgType, md, r0, role, _isMeta, _model, _usage, _inT, _outT, _ccT, _crT,
    hType, hMd, hR0, hRole, _, _, _, _, _, _, _, hmrole, _, _⟩ := parse_messageE_ok_inv h
  obtain ⟨fs, hraw, hmt⟩ := get_ok_dict hType
  subst hraw
  subst hmt
  rw [hmrole]
  by_cases hsum : pyEq ((fs.lookup "type").getD (.str "unknown")) (.str "summary") = true
  · rw [messageDataE, if_pos hsum] at hMd
    rw [rawRoleE, if_pos hsum] at hR0
    rw [except_pure_ok] at hR0
    simp only [PyVal.get, except_ok_bind, except_pure_ok, PyVal.mkDict, PyFields.ofList] at hMd
    subst hMd
    subst hR0
    rw [reclassifyE_dict, Except.ok.injEq] at hRole
    subst hRole
    simp only [roleSpec, dGetD]
    rw [if_pos hsum]
    rfl
  · rw [messageDataE, if_neg hsum] at hMd
    rw [rawRoleE, if_neg hsum] at hR0
    simp only [PyVal.get, Except.ok.injEq] at hMd
    obtain ⟨fs2, hmd2, hr0v⟩ := get_ok_dict hR0
    subst hmd2
    subst hr0v
    rw [reclassifyE_dict, Except.ok.injEq] at hRole
    subst hRole
    simp only [roleSpec, dGetD]
    rw [if_neg hsum, hMd]
    simp only [dGetD, dHasKey]

/-- The role characterization through the `try`/`except` wrapper. -/
theorem parse_some_role_eq_roleSpec {fI : String → Option Int} {raw : PyVal}
    {sa : Option Int} {fu : String} {m : ParsedMessage}
    (h : parse_message fI raw sa fu = some m) : m.role = roleSpec raw := by
  rw [parse_message] at h
  cases heq : parse_messageE fI raw sa fu with
  | ok m' =>
      rw [heq] at h
      exact (Option.some.inj h) ▸ parse_role_eq_roleSpec heq
  | error e => rw [heq] at h; cases h

/-! ## C1: role taxonomy -/

/-- C1 counterexample: the record `{"type": "system"}` normalizes with
role `system`, a raw string outside the four enumerated values, passed
straight through. -/
theorem role_passthrough_counterexample :
    (parse_message noIso rawSystem Option.none "u").map (·.role)
        = some (.str "system")
    ∧ (PyVal.str "system") ∉ [PyVal.str "user", PyVal.str "assistant",
        PyVal.str "tool", PyVal.str "summary"] :=
  ⟨by decide, by decide⟩

/-- C1 (amended): the role of every message `_parse_message` produces
is `message.role` when present, else the record `type`, except that
summary records map to `summary` and user-role tool responses
reclassify to `tool` (`roleSpec`); raw strings outside the enumerated
set `user`/`assistant`/`tool`/`summary` are passed through unchanged
rather than mapped or defaulted. -/
theorem parse_message_role_characterization
    (fI : String → Option Int) (raw : PyVal) (sa : Option Int) (fu : String)
    (m : ParsedMessage) (h : parse_message fI raw sa fu = some m) :
    m.role = roleSpec raw :=
  parse_some_role_eq_roleSpec h

/-- C1 witness: the characterization evaluated on `{"type": "system"}`. -/
theorem parse_message_role_characterization_witness :
    (parse_message noIso rawSystem Option.none "u").map (·.role)
      = some (roleSpec rawSystem) := by
  obtain ⟨m, hm⟩ : ∃ m, parse_message noIso rawSystem Option.none "u" = some m :=
    ⟨_, rfl⟩
  rw [hm, Option.map_some',
    parse_message_role_characterization noIso rawSystem Option.none "u" m hm]

/-! ## C4: tool-response reclassification -/

/-- C4 counterexample: a record with role `assistant` and a top-level
`toolUseResult` field keeps role `assistant` — the reclassification
requires the derived role to be `user`, so a bare `toolUseResult`
field does not force role `tool`. -/
theorem reclassification_counterexample :
    (parse_message noIso rawAssistantTUR Option.none "u").map (·.role)
      = some (.str "assistant") := by
  decide

/-- C4 (amended): if the derived role is `user` and the content array
contains a `tool_result` block, or the derived role is `user` and the
record has a top-level `toolUseResult` field, the produced message has
role `tool`; in particular a record with role `user` and content
`[{"type": "tool_result", "tool_use_id": "x"}]` normalizes to role
`tool`. -/
theorem user_tool_response_reclassified
    (fI : String → Option Int) (raw : PyVal) (sa : Option Int) (fu : String)
    (m : ParsedMessage) (h : parse_message fI raw sa fu = some m)
    (hrole : preRole raw = .str "user")
    (hcond : hasToolResultBlock (msgContent raw) = true
      ∨ dHasKey raw "toolUseResult" = true) :
    m.role = .str "tool" := by
  rw [parse_some_role_eq_roleSpec h]
  simp only [roleSpec]
  by_cases hsum : pyEq (dGetD raw "type" (.str "unknown")) (.str "summary") = true
  · rw [preRole, if_pos hsum] at hrole
    exact absurd hrole (by decide)
  · rw [preRole, if_neg hsum] at hrole
    simp only [msgContent] at hcond
    rw [if_neg hsum, hrole]
    rcases hcond with hc | hc <;>
      simp [hc, show pyEq (PyVal.str "user") (PyVal.str "user") = true from rfl]

/-- C4 witness: the spec's concrete reclassification instance. -/
theorem user_tool_response_reclassified_witness :
    (parse_message noIso rawUserToolResult Option.none "u").map (·.role)
      = some (.str "tool") := by
  obtain ⟨m, hm⟩ : ∃ m, parse_message noIso rawUserToolResult Option.none "u" = some m :=
    ⟨_, rfl⟩
  rw [hm, Option.map_some',
    user_tool_response_reclassified noIso rawUserToolResult Option.none "u" m hm
      (by decide) (Or.inl (by decide))]

/-! ## C5: cost accounting -/

/-- On hashable model values, `CLAUDE_PRICING.get` succeeds and returns
the specification-side price pair. -/
theorem pricingFor_hashable {model : PyVal} (h : model.hashable = true) :
    pricingFor model = .ok (priceFor model) := by
  cases model <;> first
    | rfl
    | simp [PyVal.hashable] at h

/-- The `try`/`except` wrapper inverted. -/
theorem parse_message_some_inv {fI : String → Option Int} {raw : PyVal}
    {sa : Option Int} {fu : String} {m : ParsedMessage}
    (h : parse_message fI raw sa fu = some m) :
    parse_messageE fI raw sa fu = .ok m := by
  rw [parse_message] at h
  cases heq : parse_messageE fI raw sa fu with
  | ok m' =>
      rw [heq] at h
      exact congrArg Except.ok (Option.some.inj h)
  | error e => rw [heq] at h; cases h

/-- The last four components of the accounting block are either the
extracted usage values or the zeroed defaults. -/
theorem costBlock_inputs (role model a b c d : PyVal) :
    ∃ tc cost, costBlock role model a b c d = (tc, cost, a, b, c, d) ∨
      costBlock role model a b c d = (tc, cost, .int 0, .int 0, .int 0, .int 0) := by
  simp only [costBlock]
  split
  · split
    · exact ⟨_, _, Or.inl rfl⟩
    · split
      · exact ⟨_, _, Or.inl rfl⟩
      · split
        · split
          · exact ⟨_, _, Or.inl rfl⟩
          · split
            · exact ⟨_, _, Or.inl rfl⟩
            · split
              · exact ⟨_, _, Or.inl rfl⟩
              · split
                · exact ⟨_, _, Or.inl rfl⟩
                · split
                  · exact ⟨_, _, Or.inl rfl⟩
                  · exact ⟨_, _, Or.inl rfl⟩
        · exact ⟨_, _, Or.inr rfl⟩
  · exact ⟨_, _, Or.inr rfl⟩

/-- The accounting block evaluated on integer usage with a positive
input or output count and a hashable model id. -/
theorem costBlock_int (model : PyVal) (i o cc cr : Int)
    (hpos : 0 < i ∨ 0 < o) (hhash : model.hashable = true) :
    costBlock (.str "assistant") model (.int i) (.int o) (.int cc) (.int cr)
      = (.int o,
        ((((QQ.ofInt i).divM.mul (priceFor model).1).add
          ((QQ.ofInt o).divM.mul (priceFor model).2)).add
          ((QQ.ofInt cc).divM.mul (priceFor model).1)).add
          ((QQ.ofInt cr).divM.mul ((priceFor model).1.mul ⟨1, 10⟩)),
        .int i, .int o, .int cc, .int cr) := by
  by_cases h0 : (0 : Int) < i
  · simp [costBlock, PyVal.gtZero, PyVal.toRat, pricingFor_hashable hhash, h0,
      show pyEq (PyVal.str "assistant") (PyVal.str "assistant") = true from rfl]
  · have ho' : (0 : Int) < o := hpos.resolve_left h0
    simp [costBlock, PyVal.gtZero, PyVal.toRat, pricingFor_hashable hhash, h0, ho',
      show pyEq (PyVal.str "assistant") (PyVal.str "assistant") = true from rfl]

/-- C5 (amended): for every normalized assistant message whose usage
carries a positive input or output token count (and whose model id is
a hashable value, as every JSON string is), `cost_usd` equals
`input_tokens×input_price + output_tokens×output_price +
cache_creation_tokens×input_price + cache_read_tokens×(input_price×0.1)`,
prices per million tokens from the finite pricing table with the
default entry for unknown ids, and `token_count` equals
`output_tokens`; user and tool messages get zero `token_count` and
zero cost.  (Usage consisting only of cache tokens fails the
`input>0 or output>0` gate and is costed 0 — see the counterexample.) -/
theorem cost_accounting
    (fI : String → Option Int) (raw : PyVal) (sa : Option Int) (fu : String)
    (m : ParsedMessage) (h : parse_message fI raw sa fu = some m) :
    (∀ i o cc cr : Int, m.role = .str "assistant" →
      m.input_tokens = .int i → m.output_tokens = .int o →
      m.cache_creation_tokens = .int cc → m.cache_read_tokens = .int cr →
      (0 < i ∨ 0 < o) →
      (dGetD m.metadata "model" (.str "claude-sonnet-4-5-20250929")).hashable = true →
      m.cost_usd =
        ((((QQ.ofInt i).divM.mul
            (priceFor (dGetD m.metadata "model" (.str "claude-sonnet-4-5-20250929"))).1).add
          ((QQ.ofInt o).divM.mul
            (priceFor (dGetD m.metadata "model" (.str "claude-sonnet-4-5-20250929"))).2)).add
          ((QQ.ofInt cc).divM.mul
            (priceFor (dGetD m.metadata "model" (.str "claude-sonnet-4-5-20250929"))).1)).add
          ((QQ.ofInt cr).divM.mul
            ((priceFor (dGetD m.metadata "model" (.str "claude-sonnet-4-5-20250929"))).1.mul ⟨1, 10⟩))
        ∧ m.token_count = .int o) ∧
    ((m.role = .str "user" ∨ m.role = .str "tool") →
      m.token_count = .int 0 ∧ m.cost_usd = .ofInt 0) := by
  obtain ⟨msgType, md, r0, role, isMeta, model, usage, inT, outT, ccT, crT,
    hType, hMd, hR0, hRole, hMeta, hModel, hUsage, hIn, hOut, hCc, hCr,
    hmrole, ⟨cwd, gb, hmmeta⟩, htuple⟩ := parse_messageE_ok_inv (parse_message_some_inv h)
  have hmodelv : dGetD m.metadata "model" (.str "claude-sonnet-4-5-20250929") = model := by
    rw [hmmeta]; rfl
  constructor
  · intro i o cc cr hr hi ho hcc' hcr' hpos hhash
    rw [hmodelv] at hhash
    rw [hmrole] at hr
    subst hr
    rw [hmodelv]
    obtain ⟨tc0, cost0, hshape⟩ := costBlock_inputs (.str "assistant") model inT outT ccT crT
    rcases hshape with hsh | hsh
    · rw [hsh, Prod.mk.injEq, Prod.mk.injEq, Prod.mk.injEq, Prod.mk.injEq,
        Prod.mk.injEq] at htuple
      obtain ⟨htc, hcost, hsin, hsout, hscc, hscr⟩ := htuple
      have hinT : inT = .int i := hsin.symm.trans hi
      have houtT : outT = .int o := hsout.symm.trans ho
      have hccT : ccT = .int cc := hscc.symm.trans hcc'
      have hcrT : crT = .int cr := hscr.symm.trans hcr'
      rw [hinT, houtT, hccT, hcrT, costBlock_int model i o cc cr hpos hhash,
        Prod.mk.injEq, Prod.mk.injEq] at hsh
      exact ⟨hcost.trans hsh.2.1.symm, htc.trans hsh.1.symm⟩
    · rw [hsh, Prod.mk.injEq, Prod.mk.injEq, Prod.mk.injEq, Prod.mk.injEq,
        Prod.mk.injEq] at htuple
      obtain ⟨htc, hcost, hsin, hsout, hscc, hscr⟩ := htuple
      have hi0 : (PyVal.int i) = .int 0 := hi.symm.trans hsin
      have ho0 : (PyVal.int o) = .int 0 := ho.symm.trans hsout
      rw [PyVal.int.injEq] at hi0 ho0
      omega
  · intro hur
    have hne : pyEq role (.str "assistant") = false := by
      rw [hmrole] at hur
      rcases hur with hu | hu <;> rw [hu] <;> rfl
    simp only [costBlock, hne, Bool.false_eq_true, if_false] at htuple
    rw [Prod.mk.injEq, Prod.mk.injEq] at htuple
    exact ⟨htuple.1, htuple.2.1⟩

/-- C5 counterexample: an assistant message whose usage carries only
cache-read tokens is costed 0 by the code (the `input>0 or output>0`
gate fails and all token fields are zeroed), while the claimed formula
gives the non-zero cache-read term. -/
theorem cost_accounting_counterexample :
    (parse_message noIso rawCacheOnly Option.none "u").map
        (fun m => (m.cost_usd, m.cache_read_tokens)) = some (.ofInt 0, .int 0)
    ∧ (QQ.ofInt 1000000).divM.mul
        ((priceFor (.str "claude-3-haiku-20240307")).1.mul ⟨1, 10⟩) ≠ .ofInt 0 :=
  ⟨by decide, by decide⟩

/-- C5 witness: the spec's Haiku instance (1M input, 1M output tokens)
costs 0.25 + 1.25 = 1.50 exactly. -/
theorem cost_accounting_witness :
    (parse_message noIso rawHaiku Option.none "u").map (·.cost_usd) = some ⟨3, 2⟩ := by
  have hm : parse_message noIso rawHaiku Option.none "u" = some haikuParsed := by decide
  have hc := ((cost_accounting noIso rawHaiku Option.none "u" haikuParsed hm).1
    1000000 1000000 0 0 (by decide) (by decide) (by decide) (by decide) (by decide)
    (Or.inl (by decide)) (by decide)).1
  rw [hm, Option.map_some', hc]
  decide

/-! ## C7: subagent detection -/

/-- A non-truthy `gitBranch` leaves the scan state untouched. -/
theorem gitBranchStep_skip {fs : PyFields} (acc : MetaAcc)
    (hgb : ((fs.lookup "gitBranch").getD .none).truthy = false) :
    gitBranchStep (.dict fs) acc = .ok acc := by
  cases hlk : fs.lookup "gitBranch" with
  | none =>
      simp [gitBranchStep, PyVal.containsStr, PyFields.hasKey, hlk, except_ok_bind, pure_eq_ok]
  | some v =>
      rw [hlk, Option.getD_some] at hgb
      simp [gitBranchStep, PyVal.containsStr, PyFields.hasKey, PyVal.index, hlk,
        hgb, except_ok_bind, pure_eq_ok]

/-- The `cwd` step only ever rewrites `working_directory`. -/
theorem cwdStep_shape {fs : PyFields} (acc : MetaAcc) :
    ∃ w, cwdStep (.dict fs) acc = .ok { acc with working_directory := w } := by
  cases hlk : fs.lookup "cwd" with
  | none =>
      exact ⟨acc.working_directory,
        by simp [cwdStep, PyVal.containsStr, PyFields.hasKey, hlk, except_ok_bind, pure_eq_ok]⟩
  | some v =>
      cases hv : v.truthy with
      | true =>
          exact ⟨v, by simp [cwdStep, PyVal.containsStr, PyFields.hasKey,
            PyVal.index, hlk, hv, except_ok_bind, pure_eq_ok]⟩
      | false =>
          exact ⟨acc.working_directory, by simp [cwdStep, PyVal.containsStr,
            PyFields.hasKey, PyVal.index, hlk, hv, except_ok_bind, pure_eq_ok]⟩

/-- A record that is not a sidechain record leaves the scan state
untouched. -/
theorem sidechainStep_skip {fs : PyFields} (acc : MetaAcc)
    (hsc : isSCRecord (.dict fs) = false) :
    sidechainStep (.dict fs) acc = .ok acc := by
  simp only [isSCRecord, dGetD, Bool.and_eq_false_iff] at hsc
  cases hA : ((fs.lookup "isSidechain").getD PyVal.none).truthy with
  | false => simp [sidechainStep, PyVal.get, hA, except_ok_bind, pure_eq_ok]
  | true =>
      have hB : ((fs.lookup "agentId").getD PyVal.none).truthy = false := by
        rcases hsc with h | h
        · rw [hA] at h; cases h
        · exact h
      simp [sidechainStep, PyVal.get, hA, hB, except_ok_bind, pure_eq_ok]

/-- A sidechain record overwrites the subagent fields with its own
`agentId`/`sessionId` (and possibly a fresh agent type). -/
theorem sidechainStep_set {fs : PyFields} {acc acc₁ : MetaAcc}
    (hok : sidechainStep (.dict fs) acc = .ok acc₁)
    (hsc : isSCRecord (.dict fs) = true) :
    ∃ at', acc₁ = { acc with
      is_subagent := true
      agent_id := (fs.lookup "agentId").getD .none
      parent_session_id := (fs.lookup "sessionId").getD .none
      agent_type := at' } := by
  simp only [isSCRecord, dGetD, Bool.and_eq_true] at hsc
  simp [sidechainStep, PyVal.get, hsc.1, hsc.2, except_ok_bind,
    except_bind_ok, except_pure_ok, pure_eq_ok] at hok
  obtain ⟨r, hr, at', hat, hacc⟩ := hok
  exact ⟨at', hacc.symm⟩

/-- One metadata-scan step on a dict record with a non-truthy
`gitBranch`: the branch survives unchanged, and the subagent fields are
overwritten exactly when the record is a sidechain record. -/
theorem metaStep_dict {fs : PyFields} {acc acc₁ : MetaAcc}
    (hok : metaStep (.dict fs) acc = .ok acc₁)
    (hgb : ((fs.lookup "gitBranch").getD .none).truthy = false) :
    acc₁.git_branch = acc.git_branch ∧
    (if isSCRecord (.dict fs)
     then acc₁.is_subagent = true ∧
          acc₁.agent_id = (fs.lookup "agentId").getD .none ∧
          acc₁.parent_session_id = (fs.lookup "sessionId").getD .none
     else acc₁.is_subagent = acc.is_subagent ∧
          acc₁.agent_id = acc.agent_id ∧
          acc₁.parent_session_id = acc.parent_session_id) := by
  rw [metaStep, gitBranchStep_skip acc hgb, except_ok_bind] at hok
  obtain ⟨w, hw⟩ := @cwdStep_shape fs acc
  rw [hw, except_ok_bind] at hok
  cases hsc : isSCRecord (.dict fs) with
  | false =>
      rw [sidechainStep_skip _ hsc, Except.ok.injEq] at hok
      rw [← hok]
      simp
  | true =>
      obtain ⟨at', hacc⟩ := sidechainStep_set hok hsc
      rw [hacc]
      simp

/-- Over a stream of dict records none of which carries a truthy
`gitBranch`, the scan never breaks early and its subagent fields end
up at the values of the last sidechain record (or the incoming state
when there is none). -/
theorem metaScan_agent (raws : List PyVal) :
    ∀ (acc acc' : MetaAcc),
    metaScan raws acc = .ok acc' →
    (∀ r ∈ raws, ∃ fs, r = .dict fs) →
    (∀ r ∈ raws, (dGetD r "gitBranch" .none).truthy = false) →
    acc.git_branch.truthy = false →
    ((match lastSC raws with
      | some r => acc'.is_subagent = true ∧ acc'.agent_id = dGetD r "agentId" .none ∧
          acc'.parent_session_id = dGetD r "sessionId" .none
      | Option.none => acc'.is_subagent = acc.is_subagent ∧ acc'.agent_id = acc.agent_id ∧
          acc'.parent_session_id = acc.parent_session_id) : Prop) := by
  induction raws with
  | nil =>
      intro acc acc' hok _ _ _
      rw [metaScan, except_pure_ok] at hok
      subst hok
      simp [lastSC]
  | cons r tl ih =>
      intro acc acc' hok hdict hgb hacc
      obtain ⟨fs, rfl⟩ := hdict r (List.mem_cons_self r tl)
      rw [metaScan, except_bind_ok] at hok
      obtain ⟨acc₁, hstep, hrest⟩ := hok
      have hgbr : ((fs.lookup "gitBranch").getD .none).truthy = false := by
        have := hgb _ (List.mem_cons_self _ tl)
        simpa [dGetD] using this
      obtain ⟨hgb₁, hfields⟩ := metaStep_dict hstep hgbr
      have hacc₁ : acc₁.git_branch.truthy = false := by rw [hgb₁]; exact hacc
      rw [if_neg (by simp [hacc₁])] at hrest
      have IH := ih acc₁ acc' hrest
        (fun r hr => hdict r (List.mem_cons_of_mem _ hr))
        (fun r hr => hgb r (List.mem_cons_of_mem _ hr)) hacc₁
      rw [lastSC]
      cases hl : lastSC tl with
      | some x =>
          rw [hl] at IH
          exact IH
      | none =>
          rw [hl] at IH
          cases hsc : isSCRecord (.dict fs) with
          | true =>
              rw [hsc] at hfields
              simp only [if_true] at hfields
              rw [if_pos rfl]
              refine ⟨IH.1.trans hfields.1, IH.2.1.trans ?_, IH.2.2.trans ?_⟩ <;>
                simp [hfields.2.1, hfields.2.2, dGetD]
          | false =>
              rw [hsc] at hfields
              simp only [Bool.false_eq_true, if_false] at hfields
              rw [if_neg (by decide)]
              exact ⟨IH.1.trans hfields.1, IH.2.1.trans hfields.2.1,
                IH.2.2.trans hfields.2.2⟩

/-- C7 counterexample: a stream holding two sidechain records (agent
`a1` then agent `a2`) extracts metadata carrying the second record's
`agentId`/`sessionId`, not the first's. -/
theorem subagent_detection_counterexample :
    (extract_conversation_metadata cFile [rawSidechain1, rawSidechain2]).map
        (fun md => (md.is_subagent, md.agent_id, md.parent_session_id))
      = .ok (true, .str "a2", .str "p2")
    ∧ (PyVal.str "a2") ≠ .str "a1" :=
  ⟨by decide, by decide⟩

/-- C7 (amended): over a record stream of JSON objects none of which
carries a truthy `gitBranch` (so the scan sees every record), every
record with `isSidechain` truthy and a truthy `agentId` overwrites the
subagent fields, so the extracted metadata has `is_subagent = True`
with `agent_id` and `parent_session_id` taken from the **last** such
record; a truthy `gitBranch` additionally stops the scan early, hiding
any sidechain records after it. -/
theorem subagent_detection_last_wins
    (f : ConvFile) (raws : List PyVal) (md : ConversationMetadata) (rL : PyVal)
    (hok : extract_conversation_metadata f raws = .ok md)
    (hdict : ∀ r ∈ raws, ∃ fs, r = .dict fs)
    (hgb : ∀ r ∈ raws, (dGetD r "gitBranch" .none).truthy = false)
    (hlast : lastSC raws = some rL) :
    md.is_subagent = true ∧ md.agent_id = dGetD rL "agentId" .none ∧
      md.parent_session_id = dGetD rL "sessionId" .none := by
  rw [extract_conversation_metadata, except_bind_ok] at hok
  obtain ⟨acc, hscan, hmk⟩ := hok
  rw [except_pure_ok] at hmk
  have hmain := metaScan_agent raws {} acc hscan hdict hgb rfl
  rw [hlast] at hmain
  rw [← hmk]
  exact hmain

/-- C7 witness: the amended detection evaluated on the two-sidechain
stream. -/
theorem subagent_detection_last_wins_witness :
    sidechainMeta.is_subagent = true ∧
      sidechainMeta.agent_id = dGetD rawSidechain2 "agentId" .none ∧
      sidechainMeta.parent_session_id = dGetD rawSidechain2 "sessionId" .none := by
  refine subagent_detection_last_wins cFile [rawSidechain1, rawSidechain2]
    sidechainMeta rawSidechain2 (by decide) ?_ (by decide) (by decide)
  intro r hr
  rcases List.mem_cons.mp hr with h | h
  · exact ⟨_, h⟩
  · rcases List.mem_cons.mp h with h' | h'
    · exact ⟨_, h'⟩
    · cases h'

/-! ## Timestamp repair: helper lemmas -/

theorem fix_all_isSome (l : List ParsedMessage) (mt : Int) :
    ∀ m ∈ fix_missing_timestamps l mt, m.timestamp.isSome := by
  induction l with
  | nil => intro m h; simp [fix_missing_timestamps] at h
  | cons x tl ih =>
      intro m h
      rw [fix_missing_timestamps] at h
      rcases List.mem_cons.mp h with h' | h'
      · subst h'
        cases hx : x.timestamp <;> simp [hx]
      · exact ih m h'

theorem fix_of_allSome (l : List ParsedMessage) (mt : Int)
    (h : ∀ m ∈ l, m.timestamp.isSome) : fix_missing_timestamps l mt = l := by
  induction l with
  | nil => rfl
  | cons x tl ih =>
      rw [fix_missing_timestamps]
      have hx := h x (List.mem_cons_self x tl)
      cases hxt : x.timestamp with
      | none => rw [hxt] at hx; simp at hx
      | some t =>
          simp only [hxt]
          rw [ih (fun m hm => h m (List.mem_cons_of_mem x hm))]

/-- Positional characterization of the repair pass: order and all other
fields are preserved, and a missing timestamp becomes the nearest
following timestamp of the original sequence, else the file mtime. -/
theorem fix_getElem? (l : List ParsedMessage) (mt : Int) :
    ∀ i : Nat, (fix_missing_timestamps l mt)[i]? =
      (l[i]?).map (fun m =>
        if m.timestamp.isNone then
          { m with timestamp := some ((nextTimestamp (l.drop (i + 1))).getD mt) }
        else m) := by
  induction l with
  | nil => intro i; simp [fix_missing_timestamps]
  | cons x tl ih =>
      intro i
      rw [fix_missing_timestamps]
      cases i with
      | zero =>
          cases hx : x.timestamp <;> simp [hx, nextTimestamp]
      | succ j =>
          simpa using ih j

/-- Successful file parses produce exactly the repaired normalization
of the decoded records. -/
theorem parse_file_msgs_eq {fI : String → Option Int} {fU : Nat → String}
    {f : ConvFile} {md : ConversationMetadata} {msgs : List ParsedMessage}
    (h : parse_conversation_file fI fU f = .ok (md, msgs)) :
    ∃ md0, extract_conversation_metadata f (decodedRecords f.lines) = .ok md0 ∧
      msgs = fix_missing_timestamps
        ((decodedRecords f.lines).enum.filterMap
          (fun p => parse_message fI p.2 md0.started_at (fU p.1))) f.mtime := by
  simp only [parse_conversation_file] at h
  split at h
  · cases h
  · split at h
    · cases h
    · split at h
      · cases h
      · rename_i md0 heq
        rw [Except.ok.injEq, Prod.mk.injEq] at h
        exact ⟨md0, heq, h.2.symm⟩

/-! ## C6, C10, C8 -/

/-- C6: timestamp repair is idempotent — applying
`_fix_missing_timestamps` twice yields exactly the same message
sequence as applying it once, for every message list and file
modification time. -/
theorem fix_missing_timestamps_idempotent (l : List ParsedMessage) (mt : Int) :
    fix_missing_timestamps (fix_missing_timestamps l mt) mt
      = fix_missing_timestamps l mt :=
  fix_of_allSome _ _ (fix_all_isSome l mt)

/-- C10: every message returned by `parse_conversation_file` carries a
timestamp (`isSome`); the repair pass assigns each missing timestamp
the nearest following message's timestamp, or the file modification
time when no later message has one, preserving order and all other
fields. -/
theorem parse_conversation_file_timestamps_total
    (fI : String → Option Int) (fU : Nat → String) (f : ConvFile)
    (md : ConversationMetadata) (msgs : List ParsedMessage)
    (h : parse_conversation_file fI fU f = .ok (md, msgs)) :
    (∀ m ∈ msgs, m.timestamp.isSome) ∧
    (∀ (l : List ParsedMessage) (mt : Int) (i : Nat),
      (fix_missing_timestamps l mt)[i]? =
        (l[i]?).map (fun m =>
          if m.timestamp.isNone then
            { m with timestamp := some ((nextTimestamp (l.drop (i + 1))).getD mt) }
          else m)) := by
  constructor
  · intro m hm
    obtain ⟨md0, _, hmsgs⟩ := parse_file_msgs_eq h
    subst hmsgs
    exact fix_all_isSome _ _ m hm
  · intro l mt i
    exact fix_getElem? l mt i

/-- C8: on a present file the parse skips blank lines and drops
malformed lines without aborting, it fails with the empty-file error
exactly when no line decodes, and an absent file fails with the
missing-file error. -/
theorem parse_conversation_file_error_contract
    (fI : String → Option Int) (fU : Nat → String) (f : ConvFile) :
    (f.present = false → parse_conversation_file fI fU f = .error .missingFile) ∧
    (f.present = true →
      (parse_conversation_file fI fU f = .error .emptyFile ↔
        decodedRecords f.lines = [])) ∧
    (∀ l1 l2 : List FileLine,
      parse_conversation_file fI fU { f with lines := l1 ++ .malformed :: l2 }
        = parse_conversation_file fI fU { f with lines := l1 ++ l2 }) ∧
    (∀ l1 l2 : List FileLine,
      parse_conversation_file fI fU { f with lines := l1 ++ .blank :: l2 }
        = parse_conversation_file fI fU { f with lines := l1 ++ l2 }) := by
  refine ⟨?_, ?_, ?_, ?_⟩
  · intro hp
    simp [parse_conversation_file, hp]
  · intro hp
    simp only [parse_conversation_file, hp, Bool.not_true, Bool.false_eq_true, if_false]
    constructor
    · intro h
      by_cases he : (decodedRecords f.lines).isEmpty
      · exact List.isEmpty_iff.mp he
      · rw [if_neg (by simpa using he)] at h
        split at h <;> simp_all
    · intro h
      rw [if_pos (by simp [h])]
  · intro l1 l2
    have hrec : decodedRecords (l1 ++ FileLine.malformed :: l2) = decodedRecords (l1 ++ l2) := by
      simp [decodedRecords]
    simp only [parse_conversation_file]
    rw [hrec]
    rfl
  · intro l1 l2
    have hrec : decodedRecords (l1 ++ FileLine.blank :: l2) = decodedRecords (l1 ++ l2) := by
      simp [decodedRecords]
    simp only [parse_conversation_file]
    rw [hrec]
    rfl

theorem parse_conversation_file_error_contract_witness :
    parse_conversation_file noIso uuidN { cFileOk with present := false }
      = .error .missingFile ∧
    parse_conversation_file noIso uuidN cFileEmpty = .error .emptyFile := by
  constructor
  · exact (parse_conversation_file_error_contract noIso uuidN
      { cFileOk with present := false }).1 rfl
  · exact ((parse_conversation_file_error_contract noIso uuidN cFileEmpty).2.1
      rfl).mpr (by decide)

theorem parse_conversation_file_timestamps_total_witness :
    ((parse_conversation_file noIso uuidN cFileOk).toOption.getD
        (dummyMeta, [])).2.all (fun m => m.timestamp.isSome) = true := by
  have hok : parse_conversation_file noIso uuidN cFileOk
      = .ok ((parse_conversation_file noIso uuidN cFileOk).toOption.getD
        (dummyMeta, [])) := by decide
  have h := (parse_conversation_file_timestamps_total noIso uuidN cFileOk _ _ hok).1
  rw [List.all_eq_true]
  intro m hm
  simpa using h m hm

/-! ## C9: tool-call / tool-result correlation -/

theorem PyTable.get_set {β : Type} {t t' : PyTable β} {k : PyVal} {v : β}
    (h : t.set k v = .ok t') (key : PyVal) :
    t'.get key = if pyEq k key then some v else t.get key := by
  simp only [PyTable.set] at h
  split at h
  · cases h
    simp [PyTable.get]
  · cases h

theorem foldSet_get : ∀ (ids : List PyVal) (t t' : PyTable Nat) (i : Nat),
    ids.foldlM (fun acc tid => acc.set tid i) t = .ok t' →
    ∀ key : PyVal,
      t'.get key = if ids.any (fun v => pyEq v key) then some i else t.get key := by
  intro ids
  induction ids with
  | nil =>
      intro t t' i h key
      simp only [List.foldlM, pure_eq_ok, Except.ok.injEq] at h
      subst h
      simp
  | cons x xs ih =>
      intro t t' i h key
      simp only [List.foldlM, except_bind_ok] at h
      obtain ⟨t₁, hset, hrest⟩ := h
      have hg := ih t₁ t' i hrest key
      have hs := PyTable.get_set hset key
      rw [hg]
      cases hxs : xs.any (fun v => pyEq v key) with
      | true => simp [List.any_cons, hxs]
      | false => rw [hs]; simp [List.any_cons, hxs]

theorem matchSet_get {tr tr₁ : PyTable Nat} {rid : Option PyVal} {n : Nat}
    (h : (match rid with
      | some tid => PyTable.set tr tid n
      | Option.none => pure tr) = .ok tr₁) (key : PyVal) :
    tr₁.get key = (match rid with
      | some tid => if pyEq tid key then some n else tr.get key
      | Option.none => tr.get key) := by
  cases rid with
  | none =>
      simp only [pure_eq_ok, Except.ok.injEq] at h
      subst h
      rfl
  | some tid =>
      exact PyTable.get_set h key

theorem btmGo_get : ∀ (msgs : List ParsedMessage) (n : Nat)
    (tc tr tc' tr' : PyTable Nat),
    btmGo n msgs tc tr = .ok (tc', tr') → ∀ key : PyVal,
    tc'.get key = (match lastIdxWith (hitsCall key) msgs with
      | some k => some (n + k)
      | Option.none => tc.get key) ∧
    tr'.get key = (match lastIdxWith (hitsResult key) msgs with
      | some k => some (n + k)
      | Option.none => tr.get key) := by
  intro msgs
  induction msgs with
  | nil =>
      intro n tc tr tc' tr' h key
      simp only [btmGo, pure_eq_ok, Except.ok.injEq, Prod.mk.injEq] at h
      obtain ⟨h1, h2⟩ := h
      subst h1
      subst h2
      exact ⟨rfl, rfl⟩
  | cons m tl ih =>
      intro n tc tr tc' tr' h key
      simp only [btmGo, except_bind_ok] at h
      obtain ⟨ids, hids, tc₁, hfold, rid, hrid, tr₁, hmt, hrest⟩ := h
      have hC := (ih (n + 1) tc₁ tr₁ tc' tr' hrest key).1
      have hR := (ih (n + 1) tc₁ tr₁ tc' tr' hrest key).2
      have hfg := foldSet_get ids tc tc₁ n hfold key
      have hmg := matchSet_get hmt key
      have hcall : hitsCall key m = ids.any (fun v => pyEq v key) := by
        simp [hitsCall, callIdsOf, hids, Except.toOption]
      constructor
      · rw [hC]
        cases hl : lastIdxWith (hitsCall key) tl with
        | some k =>
            simp only [lastIdxWith, hl]
            exact congrArg some (by omega)
        | none =>
            simp only [lastIdxWith, hl]
            rw [hfg, ← hcall]
            cases hh : hitsCall key m <;> simp [hh]
      · rw [hR]
        cases hl : lastIdxWith (hitsResult key) tl with
        | some k =>
            simp only [lastIdxWith, hl]
            exact congrArg some (by omega)
        | none =>
            simp only [lastIdxWith, hl]
            rw [hmg]
            cases rid with
            | some tid =>
                have hres2 : hitsResult key m = pyEq tid key := by
                  simp [hitsResult, resultIdOf, hrid, Except.toOption]
                rw [hres2]
                cases hh : pyEq tid key <;> simp [hh]
            | none =>
                have hres2 : hitsResult key m = false := by
                  simp [hitsResult, resultIdOf, hrid, Except.toOption]
                simp [hres2]

theorem lastIdxWith_eq_none (p : ParsedMessage → Bool) :
    ∀ l : List ParsedMessage, lastIdxWith p l = Option.none ↔
      ∀ k, k < l.length → p (l.getD k dummyMsg) = false := by
  intro l
  induction l with
  | nil => simp [lastIdxWith]
  | cons m tl ih =>
      constructor
      · intro h k hk
        simp only [lastIdxWith] at h
        cases hl : lastIdxWith p tl with
        | some k' => rw [hl] at h; cases h
        | none =>
            rw [hl] at h
            cases hpm : p m with
            | true => rw [hpm] at h; simp at h
            | false =>
                cases k with
                | zero => simpa using hpm
                | succ k' =>
                    exact (ih.mp hl) k' (by simp [List.length_cons] at hk; omega)
      · intro h
        have htl : lastIdxWith p tl = Option.none :=
          ih.mpr (fun k hk => by
            simpa using h (k + 1) (by simp [List.length_cons]; omega))
        have hm : p m = false := by simpa using h 0 (by simp)
        simp [lastIdxWith, htl, hm]

theorem lastIdxWith_eq_of_unique (p : ParsedMessage → Bool) :
    ∀ (l : List ParsedMessage) (i : Nat), i < l.length →
      p (l.getD i dummyMsg) = true →
      (∀ k, k < l.length → k ≠ i → p (l.getD k dummyMsg) = false) →
      lastIdxWith p l = some i := by
  intro l
  induction l with
  | nil => intro i hi _ _; simp at hi
  | cons m tl ih =>
      intro i hi hp hu
      cases i with
      | zero =>
          have htl : lastIdxWith p tl = Option.none :=
            (lastIdxWith_eq_none p tl).mpr (fun k hk => by
              simpa using hu (k + 1) (by simp [List.length_cons]; omega) (by omega))
          have hm : p m = true := by simpa using hp
          simp [lastIdxWith, htl, hm]
      | succ i' =>
          have h1 : lastIdxWith p tl = some i' :=
            ih i' (by simp [List.length_cons] at hi; omega) (by simpa using hp)
              (fun k hk hne => by
                simpa using hu (k + 1) (by simp [List.length_cons]; omega) (by omega))
          simp [lastIdxWith, h1]

/-- C9: correlation correctness of `build_tool_call_mapping` — in the
single indexed pass, an assistant message at index `i` carrying a tool
call bound to `key` and a later tool-role message at index `j`
carrying `tool_use_id` bound to `key` (each occurring once in the
list) yield `tool_id_to_call[key] = i` and
`tool_id_to_result[key] = j`. -/
theorem build_tool_call_mapping_correlates
    (msgs : List ParsedMessage) (tc tr : PyTable Nat) (key : PyVal) (i j : Nat)
    (hbuild : build_tool_call_mapping msgs = .ok (tc, tr))
    (hij : i < j)
    (hilen : i < msgs.length) (hjlen : j < msgs.length)
    (hcall : hitsCall key (msgs.getD i dummyMsg) = true)
    (hres : hitsResult key (msgs.getD j dummyMsg) = true)
    (huc : ∀ k, k < msgs.length → k ≠ i → hitsCall key (msgs.getD k dummyMsg) = false)
    (hur : ∀ k, k < msgs.length → k ≠ j → hitsResult key (msgs.getD k dummyMsg) = false) :
    tc.get key = some i ∧ tr.get key = some j := by
  have hL1 := lastIdxWith_eq_of_unique (hitsCall key) msgs i hilen hcall huc
  have hL2 := lastIdxWith_eq_of_unique (hitsResult key) msgs j hjlen hres hur
  have hb : btmGo 0 msgs [] [] = .ok (tc, tr) := hbuild
  obtain ⟨h1, h2⟩ := btmGo_get msgs 0 [] [] tc tr hb key
  rw [hL1] at h1
  rw [hL2] at h2
  exact ⟨h1.trans (by simp), h2.trans (by simp)⟩

theorem build_tool_call_mapping_correlates_witness :
    PyTable.get ([(PyVal.str "t1", 0)] : PyTable Nat) (.str "t1") = some 0 ∧
    PyTable.get ([(PyVal.str "t1", 1)] : PyTable Nat) (.str "t1") = some 1 :=
  build_tool_call_mapping_correlates sessMcp [(.str "t1", 0)] [(.str "t1", 1)]
    (.str "t1") 0 1 (by decide) (by decide) (by decide) (by decide)
    (by decide) (by decide) (by decide) (by decide)

/-! ## C2, C3: the message classifier -/

theorem pyEq_str_right {v : PyVal} {s : String} (h : pyEq v (.str s) = true) :
    v = .str s := by
  cases v <;> simp_all [pyEq, PyVal.asNum?]

theorem meta_get_eq (mdfs : PyFields) :
    (if PyVal.truthy (.dict mdfs) = true
      then PyVal.get (.dict mdfs) "is_meta" (.bool false)
      else Except.ok (.bool false))
      = Except.ok ((mdfs.lookup "is_meta").getD (.bool false)) := by
  cases mdfs <;> simp [PyVal.truthy, PyVal.get, PyFields.isEmpty, PyFields.lookup]

theorem get_message_type_tool_eval
    (st : ClassifierCache) (msgs : List ParsedMessage) (amid : Nat)
    (c : String) (tufs mdfs : PyFields) (tm : PyTable PyVal) (tid : PyVal)
    (hnosr : strContains (strLower c) "<system-reminder>" = false)
    (hmeta : ((mdfs.lookup "is_meta").getD (.bool false)).truthy = false)
    (htruthy : PyVal.truthy (.dict tufs) = true)
    (hag : tufs.hasKey "agentId" = false)
    (hidx : tufs.lookup "tool_use_id" = some tid)
    (hne : msgs.isEmpty = false)
    (hfresh : st.cacheKey ≠ some amid)
    (hmap : build_tool_call_type_map msgs = .ok tm)
    (hhash : tid.hashable = true) :
    get_message_type st (mkMsg (.str "tool") (.str c) (.dict tufs) (.dict mdfs))
        (some msgs) amid
      = match tm.get tid with
        | some ct =>
            if pyEq ct (.str "mcp") then .ok ("mcp_result", ⟨tm, some amid⟩)
            else if pyEq ct (.str "skill") then .ok ("skill_result", ⟨tm, some amid⟩)
            else if pyEq ct (.str "subagent") then .ok ("subagent_result", ⟨tm, some amid⟩)
            else if pyEq ct (.str "basic") then .ok ("basic_tool_result", ⟨tm, some amid⟩)
            else toolNameFallback (.dict tufs) ⟨tm, some amid⟩
        | Option.none => toolNameFallback (.dict tufs) ⟨tm, some amid⟩ := by
  have e1 : pyEq (PyVal.str "tool") (PyVal.str "user") = false := rfl
  have e2 : pyEq (PyVal.str "tool") (PyVal.str "system") = false := rfl
  have e3 : pyEq (PyVal.str "tool") (PyVal.str "assistant") = false := rfl
  have e4 : pyEq (PyVal.str "tool") (PyVal.str "tool") = true := rfl
  have hag' : (tufs.lookup "agentId").isSome = false := by
    simpa [PyFields.hasKey] using hag
  simp only [get_message_type, mkMsg, PyVal.lower, PyVal.containsStr, PyVal.index,
    PyVal.isDict, PyFields.hasKey, except_ok_bind, hnosr, hmeta,
    e1, e2, e3, e4, htruthy, hag, hidx, hne, hmap, hhash, pure_eq_ok,
    Option.isSome_some]
  simp [meta_get_eq, hmeta, hag', hfresh, except_ok_bind, pure_eq_ok]

/-- C2 counterexample: in a session whose call-type map types call
`t1` as `mcp`, the tool-role result for `t1` whose content carries a
`<system-reminder>` marker is classified `basic_tool_result`, not
`mcp_result` — the system-reminder check pre-empts the map lookup. -/
theorem message_type_counterexample :
    build_tool_call_type_map sessSR = .ok [(.str "t1", .str "mcp")] ∧
    get_message_type ClassifierCache.init tMsgSR (some sessSR) 5
      = .ok ("basic_tool_result", ClassifierCache.init) := by decide

/-- C2 (amended): a non-meta tool-role message without a
system-reminder marker, whose payload has a `tool_use_id` but no
`agentId` key, classified against a non-empty session under a cache
not already keyed to that session, is mapped to the result category
matching the call-type map's entry for its id
(`mcp`/`skill`/`subagent`/`basic` → corresponding `*_result`), and
falls back to the tool-name hint when the id has no map entry. -/
theorem get_message_type_result_categories
    (st : ClassifierCache) (msgs : List ParsedMessage) (amid : Nat)
    (c : String) (tufs mdfs : PyFields) (tm : PyTable PyVal) (tid : PyVal)
    (msg : ParsedMessage) (st' : ClassifierCache)
    (hmsg : msg = mkMsg (.str "tool") (.str c) (.dict tufs) (.dict mdfs))
    (hst' : st' = ⟨tm, some amid⟩)
    (hnosr : strContains (strLower c) "<system-reminder>" = false)
    (hmeta : ((mdfs.lookup "is_meta").getD (.bool false)).truthy = false)
    (htruthy : PyVal.truthy (.dict tufs) = true)
    (hag : tufs.hasKey "agentId" = false)
    (hidx : tufs.lookup "tool_use_id" = some tid)
    (hne : msgs.isEmpty = false)
    (hfresh : st.cacheKey ≠ some amid)
    (hmap : build_tool_call_type_map msgs = .ok tm)
    (hhash : tid.hashable = true) :
    (∀ ct, tm.get tid = some ct →
      (pyEq ct (.str "mcp") = true →
        get_message_type st msg (some msgs) amid = .ok ("mcp_result", st')) ∧
      (pyEq ct (.str "skill") = true →
        get_message_type st msg (some msgs) amid = .ok ("skill_result", st')) ∧
      (pyEq ct (.str "subagent") = true →
        get_message_type st msg (some msgs) amid = .ok ("subagent_result", st')) ∧
      (pyEq ct (.str "basic") = true →
        get_message_type st msg (some msgs) amid = .ok ("basic_tool_result", st'))) ∧
    (tm.get tid = Option.none →
      get_message_type st msg (some msgs) amid = toolNameFallback msg.tool_uses st') := by
  subst hmsg
  subst hst'
  have hev := get_message_type_tool_eval st msgs amid c tufs mdfs tm tid hnosr hmeta
    htruthy hag hidx hne hfresh hmap hhash
  constructor
  · intro ct hct
    simp only [hct] at hev
    refine ⟨fun h => ?_, fun h => ?_, fun h => ?_, fun h => ?_⟩ <;>
      (obtain rfl := pyEq_str_right h; exact hev.trans rfl)
  · intro hct
    simp only [hct] at hev
    exact hev

theorem get_message_type_result_categories_witness :
    get_message_type ClassifierCache.init tMsgT1 (some sessMcp) 7
      = .ok ("mcp_result", ⟨[(.str "t1", .str "mcp")], some 7⟩) :=
  ((get_message_type_result_categories ClassifierCache.init sessMcp 7 "r"
      (.ofList [("tool_use_id", .str "t1")]) .nil [(.str "t1", .str "mcp")]
      (.str "t1") tMsgT1 ⟨[(.str "t1", .str "mcp")], some 7⟩
      rfl rfl rfl rfl rfl rfl rfl rfl (by decide) (by decide) rfl).1
    (.str "mcp") rfl).1 rfl

/-- C3: the classifier is not a pure function of its two arguments —
with the module-global cache threaded as explicit state, the same
message and the same full session list classify differently under two
ambient cache states: a stale table already keyed to the session's
list identity is consulted as-is (`basic_tool_result`), while the
initial state rebuilds the map and returns `mcp_result`.  The
call-type map the classifier consults is implicit module-global
state, not a function-local or explicitly-passed table. -/
theorem classifier_global_cache_dependence :
    get_message_type ⟨[(.str "t1", .str "basic")], some 7⟩ tMsgT1 (some sessMcp) 7
      = .ok ("basic_tool_result", ⟨[(.str "t1", .str "basic")], some 7⟩) ∧
    get_message_type ClassifierCache.init tMsgT1 (some sessMcp) 7
      = .ok ("mcp_result", ⟨[(.str "t1", .str "mcp")], some 7⟩) := by decide

end CCS
